import Mathlib

/-!
Shallow embedding of the fetchWoocOrders repository (fetchWCOrders.py,
addresses.py, mapping.py) and proofs about its specification claims.

The Excel worksheet is modelled as a dense list of rows, each row a list of
cell values; styles, fills and number formats carry no cell values and are
not modelled.  openpyxl's `_current_row` bookkeeping (appends land on row
`max_row + 1`, where `max_row` is at least 1 even for an empty sheet) is
reflected in `appendRow`.  Python exceptions are modelled by `Option`:
`none` is an uncaught exception escaping `write_to_excel`.
-/

namespace FetchWC

set_option maxRecDepth 40000

/-- Value stored in one worksheet cell: `empty` models Python `None`,
`int` an integer cell, `str` a text cell (formulas are stored as text). -/
inductive CellVal where
  | empty : CellVal
  | int : Int → CellVal
  | str : String → CellVal
deriving DecidableEq

abbrev Row := List CellVal

abbrev Sheet := List Row

/-- openpyxl `max_row`: 1 even for a sheet with no cells. -/
def maxRow (s : Sheet) : Nat := max s.length 1

/-- Row `r` (1-based) of a sheet; absent rows read as empty. -/
def rowAt (s : Sheet) (r : Nat) : Row := (s[r - 1]?).getD []

/-- Cell `c` (1-based) of a row; absent cells read as `None`. -/
def cellAt (row : Row) (c : Nat) : CellVal := (row[c - 1]?).getD .empty

/-- openpyxl `cell(row, column).value` read; absent cells read as `None`. -/
def getCell (s : Sheet) (r c : Nat) : CellVal := cellAt (rowAt s r) c

/-- Pad a row with `None` cells up to length `n`. -/
def padRow (row : Row) (n : Nat) : Row :=
  row ++ List.replicate (n - row.length) CellVal.empty

/-- openpyxl `cell(row, column).value = v` write (1-based indices);
rows and cells are materialised on demand. -/
def setCell (s : Sheet) (r c : Nat) (v : CellVal) : Sheet :=
  let s' := s ++ List.replicate (r - s.length) ([] : Row)
  s'.set (r - 1) ((padRow (rowAt s' r) c).set (c - 1) v)

/-- openpyxl `sheet.append(row)`: the new row lands on row
`max_row + 1`, leaving a phantom empty row 1 when the sheet is empty. -/
def appendRow (s : Sheet) (row : Row) : Sheet :=
  if s.isEmpty then [[], row] else s ++ [row]

/-- openpyxl `sheet.insert_rows(i)`: insert one empty row at 1-based
position `i`, shifting later rows down. -/
def insertEmptyRow (s : Sheet) (i : Nat) : Sheet :=
  let s' := s ++ List.replicate (i - 1 - s.length) ([] : Row)
  s'.take (i - 1) ++ [([] : Row)] ++ s'.drop (i - 1)

/-- mapping.py `ENGLISH_COLUMN_HEADERS` (the run under study has lang "en"). -/
def ENGLISH_COLUMN_HEADERS : List (String × String) :=
  [("order_id", "Order ID"), ("status", "Status"), ("date_paid", "Date Paid"),
   ("customer_id", "Customer ID"), ("billing_name", "Billing Name"),
   ("phone", "Phone"), ("email", "Email"), ("birthday", "Birthday"),
   ("state_city", "State/City"), ("address", "Address"), ("postcode", "Postcode"),
   ("total", "Total"), ("shipping", "Shipping"), ("discount", "Discount"),
   ("sepidar_discount", "Sepidar Discount"), ("product_sku", "Product SKU"),
   ("item_name", "Item Name"), ("quantity", "Quantity"), ("item_total", "Item Total"),
   ("sepidar_id", "Sepidar ID"), ("datei", "Shipping Date"),
   ("tracking_code", "Tracking Code"), ("com_postal_payment", "Company Postal Payment"),
   ("com_postage", "Company Postage"), ("delivery_date", "Delivery Date")]

/-- `list(COLUMN_HEADERS.keys())`. -/
def COLUMN_KEYS : List String := ENGLISH_COLUMN_HEADERS.map (·.1)

/-- `list(COLUMN_HEADERS.values())`. -/
def COLUMN_HEADER_VALUES : List String := ENGLISH_COLUMN_HEADERS.map (·.2)

/-- `list(COLUMN_HEADERS.keys()).index(name)` (0-based, as in the source). -/
def colIdx (name : String) : Nat := COLUMN_KEYS.findIdx (fun k => k == name)

/-- `COLUMN_HEADERS[name]` (display label of a column key). -/
def headerLabel (name : String) : String :=
  ((ENGLISH_COLUMN_HEADERS.find? (fun p => p.1 == name)).map (·.2)).getD ""

/-- mapping.py `ENGLISH_STATUS`. -/
def ENGLISH_STATUS : List (String × String) :=
  [("pending", "Pending"), ("processing", "Processing"), ("on-hold", "On-Hold"),
   ("box", "Boxing"), ("completed", "Completed"), ("cancelled", "Cancelled"),
   ("refunded", "Refunded"), ("failed", "Failed"), ("deliver", "Deliver")]

/-- `STATUS.get(k)`. -/
def STATUS_get (k : String) : Option String :=
  (ENGLISH_STATUS.find? (fun p => p.1 == k)).map (·.2)

/-- fetchWCOrders.py `get_key_by_value`, applied to the status table and a
cell value (first key whose value equals the cell's value, else `None`). -/
def get_key_by_value (d : List (String × String)) (v : CellVal) : Option String :=
  (d.find? (fun p => CellVal.str p.2 == v)).map (·.1)

/-- mapping.py `STATES` (region code to Persian name). -/
def STATES : List (String × String) :=
  [("EAZ", "آذربایجان شرقی"), ("WAZ", "آذربایجان غربی"), ("ADL", "اردبیل"),
   ("ESF", "اصفهان"), ("ABZ", "البرز"), ("ILM", "ایلام"), ("BHR", "بوشهر"),
   ("THR", "تهران"), ("CHB", "چهارمحال و بختیاری"), ("SKH", "خراسان جنوبی"),
   ("RKH", "خراسان رضوی"), ("NKH", "خراسان شمالی"), ("KHZ", "خوزستان"),
   ("ZJN", "زنجان"), ("SMN", "سمنان"), ("SBN", "سیستان و بلوچستان"),
   ("FRS", "فارس"), ("GZN", "قزوین"), ("QHM", "قم"), ("KRD", "کردستان"),
   ("KRN", "کرمان"), ("KRH", "کرمانشاه"), ("KBD", "کهگیلویه و بویراحمد"),
   ("GLS", "گلستان"), ("GIL", "گیلان"), ("LRS", "لرستان"), ("MZN", "مازندران"),
   ("MKZ", "مرکزی"), ("HRZ", "هرمزگان"), ("HDN", "همدان"), ("YZD", "یزد")]

/-- `STATES.get(s, s)` default lookup. -/
def STATES_getD (s : String) : String :=
  (((STATES.find? (fun p => p.1 == s)).map (·.2))).getD s

/-- mapping.py `ENGLISH_TEXT["sum_month_orders_row_text"]`. -/
def TEXT_sum_month : String := "Monthly Orders"

/-- mapping.py `ENGLISH_TEXT["sum_all_orders_row_text"]`. -/
def TEXT_sum_all : String := "All Orders"

/-- Fuel-driven core of `get_column_letter` (the fuel `n` suffices since
the recursive call divides the index by 26). -/
def columnLetterAux : Nat → Nat → String
  | 0, _ => ""
  | fuel + 1, n =>
    if n ≤ 26 then String.singleton (Char.ofNat (64 + n))
    else columnLetterAux fuel ((n - 1) / 26) ++
      String.singleton (Char.ofNat (64 + ((n - 1) % 26 + 1)))

/-- openpyxl `get_column_letter` (1-based column index to letters). -/
def get_column_letter (n : Nat) : String := columnLetterAux n n

/-- Split a character list on one separator character (Python
`str.split(sep)` semantics for a one-character separator). -/
def splitOnChar (c : Char) : List Char → List (List Char)
  | [] => [[]]
  | x :: xs =>
    if x = c then [] :: splitOnChar c xs
    else
      match splitOnChar c xs with
      | [] => [[x]]
      | g :: gs => (x :: g) :: gs

/-- `s.split(c)` as a list of strings. -/
def splitStr (s : String) (c : Char) : List String :=
  (splitOnChar c s.data).map (fun l => ⟨l⟩)

/-- Decimal digit value of a character, if any. -/
def digitVal (c : Char) : Option Nat :=
  if '0' ≤ c && c ≤ '9' then some (c.toNat - 48) else none

/-- Parse a non-empty all-digit character list (Python `int(...)` on the
strings this program feeds it); `none` models `int` raising. -/
def natFromChars : List Char → Option Nat → Option Nat
  | [], acc => acc
  | c :: cs, acc =>
    match digitVal c with
    | none => none
    | some d => natFromChars cs (some ((acc.getD 0) * 10 + d))

/-- `int(s)` for the decimal strings this program parses. -/
def parseNat (s : String) : Option Nat := natFromChars s.data none

/-- Python whitespace characters stripped by `str.strip()`. -/
def isPySpace (c : Char) : Bool :=
  c = ' ' || c = '\t' || c = '\n' || c = '\r' || c = '\x0b' || c = '\x0c'

/-- Python `str.strip()`. -/
def stripStr (s : String) : String :=
  ⟨((s.data.dropWhile isPySpace).reverse.dropWhile isPySpace).reverse⟩

/-- `", ".join`-style concatenation with a separator. -/
def joinWith (sep : String) : List String → String
  | [] => ""
  | [x] => x
  | x :: xs => x ++ sep ++ joinWith sep xs

/-- Translation table `str.maketrans('۰۱۲۳۴۵۶۷۸۹', '0123456789')`. -/
def persianDigit (c : Char) : Char :=
  if c = '۰' then '0' else if c = '۱' then '1' else if c = '۲' then '2'
  else if c = '۳' then '3' else if c = '۴' then '4' else if c = '۵' then '5'
  else if c = '۶' then '6' else if c = '۷' then '7' else if c = '۸' then '8'
  else if c = '۹' then '9' else c

/-- Translation table `str.maketrans('٠١٢٣٤٥٦٧٨٩', '0123456789')`. -/
def arabicDigit (c : Char) : Char :=
  if c = '٠' then '0' else if c = '١' then '1' else if c = '٢' then '2'
  else if c = '٣' then '3' else if c = '٤' then '4' else if c = '٥' then '5'
  else if c = '٦' then '6' else if c = '٧' then '7' else if c = '٨' then '8'
  else if c = '٩' then '9' else c

/-- `s.translate(persian_to_english).translate(arabic_to_english)`. -/
def translateDigits (s : String) : String :=
  ⟨(s.data.map persianDigit).map arabicDigit⟩

/-- Gregorian month lengths used by the Gregorian-to-Jalali conversion. -/
def g_days_in_month : List Nat := [31, 28, 31, 30, 31, 30, 31, 31, 30, 31, 30, 31]

/-- Jalali month lengths used by the Gregorian-to-Jalali conversion. -/
def j_days_in_month : List Nat := [31, 31, 31, 31, 31, 31, 30, 30, 30, 30, 30, 29]

/-- Sum of the first `k` entries of a list (days before month `k+1`). -/
def sumFirst (l : List Nat) (k : Nat) : Nat := (l.take k).foldl (· + ·) 0

/-- Day count since the 1600-03-01-aligned epoch of the standard
Gregorian-to-Jalali algorithm (as implemented by the jdatetime library). -/
def gregorianDayNo (gy gm gd : Nat) : Nat :=
  let gy2 := gy - 1600
  let base := 365 * gy2 + (gy2 + 3) / 4 - (gy2 + 99) / 100 + (gy2 + 399) / 400
  let base := base + sumFirst g_days_in_month (gm - 1)
  let leap := if gm - 1 > 1 &&
      ((gy % 4 == 0 && gy % 100 != 0) || gy % 400 == 0) then 1 else 0
  base + leap + (gd - 1)

/-- Jalali calendar date. -/
structure JalaliDate where
  year : Nat
  month : Nat
  day : Nat
deriving DecidableEq

/-- Walk the (first 11) Jalali month lengths to split a day-of-year into
a 0-based month index and 0-based day (month 12 falls through). -/
def jmdAux : List Nat → Nat → Nat → Nat × Nat
  | [], i, d => (i, d)
  | m :: rest, i, d => if d < m then (i, d) else jmdAux rest (i + 1) (d - m)

/-- `jdatetime.date.fromgregorian`: Gregorian to Jalali conversion. -/
def jalaliFromGregorian (gy gm gd : Nat) : JalaliDate :=
  let j_day_no := gregorianDayNo gy gm gd - 79
  let j_np := j_day_no / 12053
  let j1 := j_day_no % 12053
  let jy0 := 979 + 33 * j_np + 4 * (j1 / 1461)
  let j2 := j1 % 1461
  let jy := if j2 ≥ 366 then jy0 + (j2 - 1) / 365 else jy0
  let j3 := if j2 ≥ 366 then (j2 - 1) % 365 else j2
  let md := jmdAux (j_days_in_month.take 11) 0 j3
  { year := jy, month := md.1 + 1, day := md.2 + 1 }

/-- Parse `"YYYY-MM-DD"`; `none` models `datetime.fromisoformat` raising. -/
def parseIsoDate (s : String) : Option (Nat × Nat × Nat) :=
  match splitStr s '-' with
  | [y, m, d] =>
    match parseNat y, parseNat m, parseNat d with
    | some a, some b, some c => some (a, b, c)
    | _, _, _ => none
  | _ => none

/-- fetchWCOrders.py `convert_to_jalali`: split the ISO timestamp on `'T'`
and convert the date part; `none` models the function raising (e.g. when
called on a value with no `'T'`, or an unparseable date). -/
def convert_to_jalali (date_string : String) : Option (JalaliDate × String) :=
  match splitStr date_string 'T' with
  | [date_part, time_part] =>
    match parseIsoDate date_part with
    | some (y, m, d) => some (jalaliFromGregorian y m d, time_part)
    | none => none
  | _ => none

/-- Python `f"{n:02d}"` for the month/day fields. -/
def twoDigit (n : Nat) : String :=
  if n < 10 then "0" ++ toString n else toString n

/-- `f"{jalali_date.year}-{jalali_date.month:02d}"` (the month-bucket key). -/
def monthKey (jd : JalaliDate) : String :=
  toString jd.year ++ "-" ++ twoDigit jd.month

/-- `f"{jalali_date.year}/{jalali_date.month:02d}/{jalali_date.day:02d}"`. -/
def datePartStr (jd : JalaliDate) : String :=
  toString jd.year ++ "/" ++ twoDigit jd.month ++ "/" ++ twoDigit jd.day

/-- One `meta_data` entry of a WooCommerce order. -/
structure MetaItem where
  key : String
  value : String
deriving DecidableEq

/-- One `line_items` entry (quantity arrives as a JSON integer, `total` as a
numeric string that the source immediately converts with `int(...)`). -/
structure LineItem where
  sku : String
  name : String
  quantity : Int
  total : Int
deriving DecidableEq

/-- `billing` sub-object fields the source reads. -/
structure BillingInfo where
  first_name : String
  last_name : String
  phone : String
  email : String
deriving DecidableEq

/-- `shipping` sub-object fields the source reads. -/
structure ShippingInfo where
  state : String
  city : String
  address_1 : String
  postcode : String
deriving DecidableEq

/-- One upstream order record.  `total`, `discount_total` and the
shipping-line totals arrive as numeric strings that the source converts
with `int(...)`/`float(...)`; they are modelled as integers (the digit
filter and float truncation are the identity on integral inputs).
`date_paid` is nullable. -/
structure Order where
  id : Int
  status : String
  date_paid : Option String
  customer_id : Int
  billing : BillingInfo
  shipping : ShippingInfo
  total : Int
  discount_total : Int
  shipping_lines : List Int
  meta_data : List MetaItem
  line_items : List LineItem
deriving DecidableEq

/-- fetchWCOrders.py `find_meta_value`: first matching key, else `None`. -/
def find_meta_value (o : Order) (target_key : String) : Option String :=
  (o.meta_data.find? (fun it => it.key == target_key)).map (·.value)

/-- A Python value that may be `None` written into a cell. -/
def cellOfOpt : Option String → CellVal
  | none => .empty
  | some s => .str s

/-- `round(int(order['discount_total']) * 10 / 1.10)`: the exact value of
`d*10/1.1 = 100*d/11` rounded to the nearest integer (a tie is impossible
because 11 is odd, so round-half-to-even and round-half-up agree). -/
def sepidarDiscount (d : Int) : Int := (200 * d + 11) / 22

/-- fetchWCOrders.py `create_order_row`: project one order into the
25-cell ledger row.  `none` models the `AttributeError` raised when
`find_meta_value(order, '_billing_field_529')` returns `None` and the
source calls `.translate` on it, or `convert_to_jalali` raising. -/
def create_order_row (o : Order) : Option Row :=
  let shipping_total := o.shipping_lines.foldl (· + ·) 0
  let datePart? : Option String :=
    match o.date_paid with
    | some dp => (convert_to_jalali dp).map (fun p => datePartStr p.1)
    | none => some ""
  match datePart?, find_meta_value o "_billing_field_529" with
  | some date_part, some birthdayRaw =>
    let address_1 := translateDigits o.shipping.address_1
    let birthday := translateDigits birthdayRaw
    some [ .int o.id,
      cellOfOpt (STATUS_get o.status),
      .str date_part,
      .int o.customer_id,
      .str (o.billing.first_name ++ " " ++ o.billing.last_name),
      .str o.billing.phone,
      .str o.billing.email,
      .str birthday,
      .str (STATES_getD o.shipping.state ++ "، " ++ o.shipping.city),
      .str address_1,
      .str o.shipping.postcode,
      .int (o.total * 10),
      .int (shipping_total * 10),
      .int (o.discount_total * 10),
      .int (sepidarDiscount o.discount_total),
      .str "", .str "", .str "", .str "", .str "",
      cellOfOpt (find_meta_value o "datei"),
      cellOfOpt (find_meta_value o "marsule"), .str "", .str "",
      cellOfOpt (find_meta_value o "datedeliver") ]
  | _, _ => none

/-- fetchWCOrders.py `write_products`: the row appended for one line item
(`[''] * 15` then sku, name, quantity, scaled total). -/
def productRow (it : LineItem) : Row :=
  List.replicate 15 (CellVal.str "") ++
    [.str it.sku, .str it.name, .int it.quantity, .int (it.total * 10)]

/-- List of columns summed per bucket (`col_list` in `write_to_excel`). -/
def COL_LIST : List String :=
  ["address", "postcode", "total", "shipping", "discount",
   "sepidar_discount", "item_total", "com_postal_payment", "com_postage"]

/-- Cell predicate for `isinstance(value, int)`. -/
def isIntCell : CellVal → Bool
  | .int _ => true
  | _ => false

/-- fetchWCOrders.py `count_integer_rows`: locate `column_name` in the
header row (row 1) and count the integer-valued cells of that column in
rows `start_row..stop_row`; `none` models the `ValueError` raised when the
column name is absent from row 1. -/
def count_integer_rows (sheet : Sheet) (column_name : String)
    (start_row stop_row : Nat) : Option Nat :=
  let headers := (sheet[0]?).getD []
  match headers.findIdx? (fun v => v == CellVal.str column_name) with
  | none => none
  | some idx0 =>
    some (((List.range' start_row (stop_row + 1 - start_row)).filter
      (fun r => isIntCell (getCell sheet r (idx0 + 1)))).length)

/-- `f'=SUM({L}{from}:{L}{last})'` for column index `c` (1-based). -/
def sumFormula (c from_row last_row : Nat) : String :=
  "=SUM(" ++ get_column_letter c ++ toString from_row ++ ":" ++
    get_column_letter c ++ toString last_row ++ ")"

/-- fetchWCOrders.py `add_sum_row`: insert a subtotal row at
`last_row + 1`, set its label, order count and per-column SUM formulas,
and return the new sheet with the subtotal row's index.  `none` models
`count_integer_rows` raising. -/
def add_sum_row (sheet : Sheet) (from_row last_row : Nat)
    (col_list : List String) : Option (Sheet × Nat) :=
  let sum_row_index := last_row + 1
  let sheet := insertEmptyRow sheet sum_row_index
  let sheet := setCell sheet sum_row_index (colIdx "address" + 1)
    (.str TEXT_sum_month)
  match count_integer_rows sheet (headerLabel "order_id") from_row last_row with
  | none => none
  | some cnt =>
    let sheet := setCell sheet sum_row_index (colIdx "postcode" + 1)
      (.int (Int.ofNat cnt))
    let sheet := col_list.foldl (fun sh name =>
      if name == "address" || name == "postcode" then sh
      else setCell sh sum_row_index (colIdx name + 1)
        (.str (sumFormula (colIdx name + 1) from_row last_row))) sheet
    some (sheet, sum_row_index)

/-- fetchWCOrders.py `find_sum_rows`: 1-based indices of the rows (from
row 2 on) whose address-column cell equals the monthly-subtotal label. -/
def find_sum_rows (sheet : Sheet) : List Nat :=
  (List.range' 2 (maxRow sheet - 1)).filter
    (fun r => getCell sheet r (colIdx "address" + 1) == CellVal.str TEXT_sum_month)

/-- fetchWCOrders.py `calculate_totals` for one column: the grand-total
formula `"=" ++ "C{i1} + C{i2} + ..."` over the subtotal-row indices. -/
def calcTotal (sum_rows : List Nat) (name : String) : String :=
  "=" ++ joinWith " + "
    (sum_rows.map (fun i => get_column_letter (colIdx name + 1) ++ toString i))

/-- fetchWCOrders.py `append_totals`: append the grand-total row (24 cells;
label in the address column, combined formulas in the aggregated columns). -/
def append_totals (sheet : Sheet) (sum_rows : List Nat) : Sheet :=
  appendRow sheet
    [ .str "", .str "", .str "", .str "", .str "", .str "", .str "", .str "",
      .str "", .str TEXT_sum_all, .str (calcTotal sum_rows "postcode"),
      .str (calcTotal sum_rows "total"), .str (calcTotal sum_rows "shipping"),
      .str (calcTotal sum_rows "discount"),
      .str (calcTotal sum_rows "sepidar_discount"), .str "", .str "", .str "",
      .str (calcTotal sum_rows "item_total"), .str "", .str "", .str "",
      .str (calcTotal sum_rows "com_postal_payment"),
      .str (calcTotal sum_rows "com_postage") ]

/-- Insert-or-overwrite, preserving insertion order (Python dict update). -/
def dictInsert (d : List (CellVal × Nat)) (k : CellVal) (v : Nat) :
    List (CellVal × Nat) :=
  if d.any (fun kv => kv.1 == k) then
    d.map (fun kv => if kv.1 == k then (k, v) else kv)
  else d ++ [(k, v)]

/-- The `existing_order_ids` dict comprehension: order-id cell of each row
`2..max_row` mapped to its (last) row index, `None` keys dropped. -/
def build_existing_ids (sheet : Sheet) : List (CellVal × Nat) :=
  ((List.range' 2 (maxRow sheet - 1)).foldl
    (fun d r => dictInsert d (getCell sheet r (colIdx "order_id" + 1)) r)
    []).filter (fun kv => kv.1 ≠ CellVal.empty)

/-- Dict lookup on the `existing_order_ids` association list. -/
def dictLookup (d : List (CellVal × Nat)) (k : CellVal) : Option Nat :=
  (d.find? (fun kv => kv.1 == k)).map (·.2)

/-- The status value the upsert writes: `STATUS.get(current_status)`. -/
def statusCellOf (o : Order) : CellVal := cellOfOpt (STATUS_get o.status)

/-- The dispatch-date value the upsert writes. -/
def dateiCellOf (o : Order) : CellVal := cellOfOpt (find_meta_value o "datei")

/-- The tracking-code value the upsert writes. -/
def trackCellOf (o : Order) : CellVal := cellOfOpt (find_meta_value o "marsule")

/-- The delivery-date value the upsert writes. -/
def deliverCellOf (o : Order) : CellVal :=
  cellOfOpt (find_meta_value o "datedeliver")

/-- One conditional metadata-cell update (`if current != existing: write`). -/
def updateCellIfChanged (sheet : Sheet) (r c : Nat) (current : CellVal) :
    Sheet :=
  if current ≠ getCell sheet r c then setCell sheet r c current else sheet

/-- fetchWCOrders.py `write_to_excel` lines 412-441, the update branch of
the upsert: compare and conditionally rewrite the status, dispatch date
(`datei`), tracking code (`marsule`) and delivery date cells of the
existing row `row_index`. -/
def updateExisting (sheet : Sheet) (row_index : Nat) (o : Order) : Sheet :=
  let lang_existing := getCell sheet row_index (colIdx "status" + 1)
  let existing_status := get_key_by_value ENGLISH_STATUS lang_existing
  let sheet :=
    if existing_status ≠ some o.status then
      setCell sheet row_index (colIdx "status" + 1) (statusCellOf o)
    else sheet
  let sheet := updateCellIfChanged sheet row_index (colIdx "datei" + 1)
    (dateiCellOf o)
  let sheet := updateCellIfChanged sheet row_index (colIdx "tracking_code" + 1)
    (trackCellOf o)
  let sheet := updateCellIfChanged sheet row_index (colIdx "delivery_date" + 1)
    (deliverCellOf o)
  sheet

/-- The `f"=M{row_index} - W{row_index}"` company-postage formula. -/
def comPostageFormula (row_index : Nat) : String :=
  "=M" ++ toString row_index ++ " - W" ++ toString row_index

/-- fetchWCOrders.py `write_to_excel` lines 455-466, the insert branch of
the upsert: append the projected order row, append its product child rows,
then store the company-postage formula on the order's row.  Returns the
new sheet and the order row's index; `none` models `create_order_row`
raising. -/
def insertNewOrder (sheet : Sheet) (o : Order) : Option (Sheet × Nat) :=
  match create_order_row o with
  | none => none
  | some order_row =>
    let sheet := appendRow sheet order_row
    let row_index := maxRow sheet
    let sheet := o.line_items.foldl (fun sh it => appendRow sh (productRow it)) sheet
    let sheet := setCell sheet row_index (colIdx "com_postage" + 1)
      (.str (comPostageFormula row_index))
    some (sheet, row_index)

/-- Ghost record of one emitted subtotal row: the summed row range
(`from_row`, `last_row`) and the Jalali month bucket it closes.  Ghost
instrumentation only — it does not influence the computed sheet. -/
structure SumEntry where
  fromRow : Nat
  lastRow : Nat
  month : String
deriving DecidableEq

/-- State of the main reconciliation loop over the fetched orders.
`sumLog` and `rowLog` are ghost logs (emitted subtotal ranges, and
inserted order rows with their paid-month key); they mirror no Python
state and never influence the sheet. -/
structure LoopState where
  sheet : Sheet
  last_month : Option String
  from_row : Nat
  new_count : Nat
  sumLog : List SumEntry
  rowLog : List (Nat × String)
deriving DecidableEq

/-- One iteration of the `for order in orders` loop of `write_to_excel`
(lines 405-466).  `ids` is the `existing_order_ids` dict (computed once,
before the loop).  `none` models an exception escaping the loop body:
`convert_to_jalali(order['date_paid'])` on a `None`/malformed timestamp,
or `create_order_row`/`add_sum_row` raising. -/
def procOrder (ids : List (CellVal × Nat)) (st : LoopState) (o : Order) :
    Option LoopState :=
  match o.date_paid with
  | none => none
  | some dp =>
    match convert_to_jalali dp with
    | none => none
    | some (jd, _) =>
      let cm := monthKey jd
      let lm := st.last_month.getD cm
      match dictLookup ids (.int o.id) with
      | some row_index =>
        some { st with sheet := updateExisting st.sheet row_index o,
                       last_month := some cm }
      | none =>
        let closed? : Option (Sheet × Nat × List SumEntry) :=
          if cm ≠ lm then
            match add_sum_row st.sheet st.from_row (maxRow st.sheet) COL_LIST with
            | none => none
            | some (sh, _) =>
              some (sh, maxRow sh + 1,
                st.sumLog ++ [⟨st.from_row, maxRow st.sheet, lm⟩])
          else some (st.sheet, st.from_row, st.sumLog)
        match closed? with
        | none => none
        | some (sh, fr, slog) =>
          match insertNewOrder sh o with
          | none => none
          | some (sh, row_index) =>
            some { sheet := sh, last_month := some cm, from_row := fr,
                   new_count := st.new_count + 1, sumLog := slog,
                   rowLog := st.rowLog ++ [(row_index, cm)] }

/-- Result of one full `write_to_excel` run: the saved sheet plus the
ghost logs accumulated by the loop and the end-of-batch subtotal. -/
structure RunResult where
  sheet : Sheet
  sumLog : List SumEntry
  rowLog : List (Nat × String)
deriving DecidableEq

/-- The header row written into a fresh ledger
(`list(COLUMN_HEADERS.values())`). -/
def headerRow : Row := COLUMN_HEADER_VALUES.map CellVal.str

/-- The initial sheet of `write_to_excel` (lines 353-378): load the file
(`none` = absent file, a fresh workbook), write the header row when
`max_row == 1`, then drop the trailing grand-total row and monthly
subtotal row when `max_row > 1`. -/
def initSheet (file : Option Sheet) : Sheet :=
  let rows := file.getD []
  let sheet := if rows.length ≤ 1 then rows ++ [headerRow] else rows
  if sheet.length > 1 then sheet.dropLast.dropLast else sheet

/-- fetchWCOrders.py `write_to_excel` (with ghost logs): load/initialise,
build `existing_order_ids`, run the upsert loop, close the trailing
bucket with a subtotal row (`sum_rows[-1]` raising `IndexError` on an
empty list is modelled by `none`), and append the grand-total row.
Styling, number formats and the actual `workbook.save` I/O carry no cell
values and are not modelled. -/
def write_to_excel_run (file : Option Sheet) (orders : List Order) :
    Option RunResult :=
  let sheet := initSheet file
  let ids := build_existing_ids sheet
  match orders.foldlM (procOrder ids)
      ⟨sheet, none, 2, 0, [], []⟩ with
  | none => none
  | some st =>
    match (find_sum_rows st.sheet).getLast? with
    | none => none
    | some last =>
      match add_sum_row st.sheet (last + 1) (maxRow st.sheet) COL_LIST with
      | none => none
      | some (sh, _) =>
        some ⟨append_totals sh (find_sum_rows sh),
          st.sumLog ++ [⟨last + 1, maxRow st.sheet, st.last_month.getD ""⟩],
          st.rowLog⟩

/-- fetchWCOrders.py `write_to_excel`: the saved sheet of a run
(`none` = an exception aborted the run before saving). -/
def write_to_excel (file : Option Sheet) (orders : List Order) :
    Option Sheet :=
  (write_to_excel_run file orders).map (·.sheet)

/-- Outcome of one HTTP attempt inside `fetch_page`: the four caught
exception classes, or a successful JSON payload. -/
inductive FetchOutcome (α : Type) where
  | timeout : FetchOutcome α
  | connError : FetchOutcome α
  | httpError : FetchOutcome α
  | reqError : FetchOutcome α
  | unexpected : FetchOutcome α
  | success : List α → FetchOutcome α

/-- The `for attempt in range(max_retries)` loop of `fetch_page`.  `env`
gives the outcome of each attempt; the returned list is the per-attempt
timeout actually used (`wc_api['TIMEOUT'] + 5 * attempt`), instrumentation
for the retry claims.  The result is `some payload` on success, `some []`
on a fast-fail or on exhausting retries, and `none` when the loop body
never runs (Python falls through and returns `None`). -/
def fetchAttempts {α : Type} (base : Nat) (env : Nat → FetchOutcome α) :
    Nat → Nat → List Nat × Option (List α)
  | _, 0 => ([], none)
  | attempt, rem + 1 =>
    let t := base + 5 * attempt
    match env attempt with
    | .success p => ([t], some p)
    | .timeout =>
      if rem > 0 then
        let r := fetchAttempts base env (attempt + 1) rem
        (t :: r.1, r.2)
      else ([t], some [])
    | .connError =>
      if rem > 0 then
        let r := fetchAttempts base env (attempt + 1) rem
        (t :: r.1, r.2)
      else ([t], some [])
    | .httpError => ([t], some [])
    | .reqError => ([t], some [])
    | .unexpected => ([t], some [])

/-- fetchWCOrders.py `fetch_page` (`max_retries` defaults to 3 at the call
sites): first component is the list of per-attempt timeouts issued,
second the returned payload. -/
def fetch_page {α : Type} (base : Nat) (env : Nat → FetchOutcome α)
    (max_retries : Nat) : List Nat × Option (List α) :=
  fetchAttempts base env 0 max_retries

/-- The `__main__` filter: drop orders whose status is `'cancelled'` or
`'pending'` before sorting and reconciliation. -/
def filter_orders (all_orders : List Order) : List Order :=
  all_orders.filter (fun o => o.status != "cancelled" && o.status != "pending")

/-- Stable insertion into an id-sorted list (helper for `sort_orders`). -/
def insertById (o : Order) : List Order → List Order
  | [] => [o]
  | x :: xs => if o.id ≤ x.id then o :: x :: xs else x :: insertById o xs

/-- `orders.sort(key=lambda k: int(k['id']))`: a stable sort by id. -/
def sort_orders : List Order → List Order
  | [] => []
  | x :: xs => insertById x (sort_orders xs)

/-- The batch handed to `write_to_excel` by `__main__`: the fetched
orders filtered of cancelled/pending records and sorted by id. -/
def main_batch (all_orders : List Order) : List Order :=
  sort_orders (filter_orders all_orders)

/-- The `__main__` fetch-and-reconcile composition: reconcile the ledger
file with the filtered, id-sorted batch (the source skips the write
entirely when the filtered batch is empty). -/
def reconcile_cycle (file : Option Sheet) (all_orders : List Order) :
    Option Sheet :=
  write_to_excel file (main_batch all_orders)

/-- addresses.py `process_replacements` lines 103-107, phone branch:
strip a trailing `".0"` artifact, then prefix `"0"` when the value starts
with `"9"` and is exactly 10 characters long. -/
def strip_dot_zero (p : String) : String :=
  match p.data.reverse with
  | '0' :: '.' :: _ => ⟨p.data.dropLast.dropLast⟩
  | _ => p

/-- Python `s.startswith('9')`. -/
def startsWithNine (p : String) : Bool :=
  match p.data with
  | '9' :: _ => true
  | _ => false

/-- addresses.py phone normalization applied to one phone cell
(`str(row['phone']).strip()` then the two rules above). -/
def process_phone (raw : String) : String :=
  let p := stripStr raw
  let p := strip_dot_zero p
  if startsWithNine p && p.data.length == 10 then "0" ++ p else p

/-- Metadata collection carrying the birthday field (concrete test data). -/
def demoMeta : List MetaItem :=
  [⟨"_billing_field_529", "1370/01/01"⟩, ⟨"datei", "1403/02/10"⟩]

/-- Concrete order paid 2024-03-25 (Jalali month 1403-01). -/
def orderA : Order :=
  { id := 1, status := "processing",
    date_paid := some "2024-03-25T10:00:00", customer_id := 11,
    billing := ⟨"Ali", "Azar", "09120000001", "ali@example.com"⟩,
    shipping := ⟨"THR", "Tehran", "Street 1", "1111111111"⟩,
    total := 1000, discount_total := 100, shipping_lines := [50],
    meta_data := demoMeta,
    line_items := [⟨"SKU1", "Widget", 2, 400⟩] }

/-- Concrete order paid 2024-03-26 (same Jalali month 1403-01 as
`orderA`). -/
def orderA2 : Order :=
  { id := 6, status := "processing",
    date_paid := some "2024-03-26T11:00:00", customer_id := 16,
    billing := ⟨"Leila", "Aban", "09120000006", "leila@example.com"⟩,
    shipping := ⟨"THR", "Tehran", "Street 6", "6666666666"⟩,
    total := 800, discount_total := 0, shipping_lines := [40],
    meta_data := demoMeta, line_items := [] }

/-- Concrete order paid 2024-04-25 (Jalali month 1403-02). -/
def orderB : Order :=
  { id := 2, status := "completed",
    date_paid := some "2024-04-25T09:30:00", customer_id := 12,
    billing := ⟨"Sara", "Bahar", "09120000002", "sara@example.com"⟩,
    shipping := ⟨"ESF", "Esfahan", "Street 2", "2222222222"⟩,
    total := 2000, discount_total := 0, shipping_lines := [60],
    meta_data := demoMeta,
    line_items := [⟨"SKU2", "Gadget", 1, 2000⟩] }

/-- Concrete order paid 2024-05-25 (Jalali month 1403-03). -/
def orderC : Order :=
  { id := 3, status := "processing",
    date_paid := some "2024-05-25T08:00:00", customer_id := 13,
    billing := ⟨"Reza", "Tir", "09120000003", "reza@example.com"⟩,
    shipping := ⟨"THR", "Tehran", "Street 3", "3333333333"⟩,
    total := 3000, discount_total := 0, shipping_lines := [70],
    meta_data := demoMeta,
    line_items := [] }

/-- Concrete order with a `None` paid timestamp (dateless record). -/
def orderNullDate : Order :=
  { id := 4, status := "processing", date_paid := none, customer_id := 14,
    billing := ⟨"Nima", "Dey", "09120000004", "nima@example.com"⟩,
    shipping := ⟨"THR", "Tehran", "Street 4", "4444444444"⟩,
    total := 500, discount_total := 0, shipping_lines := [],
    meta_data := demoMeta, line_items := [] }

/-- Concrete order whose metadata lacks the `_billing_field_529` key. -/
def orderNoBirthday : Order :=
  { id := 5, status := "processing",
    date_paid := some "2024-04-26T12:00:00", customer_id := 15,
    billing := ⟨"Omid", "Mehr", "09120000005", "omid@example.com"⟩,
    shipping := ⟨"THR", "Tehran", "Street 5", "5555555555"⟩,
    total := 700, discount_total := 0, shipping_lines := [],
    meta_data := [⟨"datei", "1403/02/11"⟩], line_items := [] }

/-- Two-month demo batch: a run on it from an absent file succeeds. -/
def demoBatch : List Order := [orderA, orderB]

/-- Ledger produced by the first demo run (absent file, `demoBatch`). -/
def demoRun1 : RunResult :=
  (write_to_excel_run none demoBatch).getD ⟨[], [], []⟩

/-- Second-run batch: the two existing orders plus a new third-month one. -/
def demoBatch2 : List Order := [orderA, orderB, orderC]

/-- Result of the second run: the first run's ledger reconciled with
`demoBatch2` (triggers the cross-bucket subtotal range of claim C5). -/
def demoRun2 : RunResult :=
  (write_to_excel_run (some demoRun1.sheet) demoBatch2).getD ⟨[], [], []⟩

/-- Paid-date month of a ledger row, recovered from its date cell
(`"y/mm/dd"` mapped to the bucket key `"y-mm"`). -/
def rowMonthCell (S : Sheet) (r : Nat) : Option String :=
  match getCell S r (colIdx "date_paid" + 1) with
  | .str d =>
    match splitStr d '/' with
    | [y, m, _] => some (y ++ "-" ++ m)
    | _ => none
  | _ => none

/-- Paid-month of an inserted row, read from the ghost row log. -/
def rowLogMonth (log : List (Nat × String)) (r : Nat) : Option String :=
  (log.find? (fun p => p.1 == r)).map (·.2)

/-- Spec bucket-integrity, part 1: the row ranges summed by the
generated SubtotalRows are pairwise disjoint (each ends before the next
begins, in emission order). -/
def sumLogSeparated (L : List SumEntry) : Prop :=
  L.Pairwise (fun e1 e2 => e1.lastRow < e2.fromRow)

/-- Spec bucket-integrity, part 2: every data row (integer order-id
cell) inside a generated SubtotalRow's summed range was inserted with a
paid-date month equal to that SubtotalRow's declared month. -/
def sumLogHomogeneous (res : RunResult) : Prop :=
  ∀ e ∈ res.sumLog, ∀ r : Nat, e.fromRow ≤ r → r ≤ e.lastRow →
    isIntCell (getCell res.sheet r 1) = true →
    rowLogMonth res.rowLog r = some e.month

/-- Invariant of the reconciliation loop on a run that starts from an
absent file (every order takes the insert path).  The fields tie the
ghost logs to the sheet: logged subtotal ranges end before `from_row`
and keep their label cell; logged rows are the only rows with integer
order-id cells; rows at or past `from_row` belong to the open bucket. -/
structure FreshInv (st : LoopState) : Prop where
  hlen : 1 ≤ st.sheet.length
  hheader : st.sheet[0]? = some headerRow
  hfr2 : 2 ≤ st.from_row
  hfrlen : st.from_row ≤ st.sheet.length + 1
  hnone : st.last_month = none → st.rowLog = [] ∧ st.sumLog = []
  hslnil : st.sumLog = [] → st.from_row = 2
  hsllast : ∀ eL, st.sumLog.getLast? = some eL → st.from_row = eL.lastRow + 2
  hsep : st.sumLog.Pairwise (fun e1 e2 => e1.lastRow < e2.fromRow)
  hentries : ∀ e ∈ st.sumLog, 2 ≤ e.fromRow ∧ e.fromRow ≤ e.lastRow + 1 ∧
    e.lastRow + 1 ≤ st.sheet.length ∧ e.lastRow + 2 ≤ st.from_row ∧
    getCell st.sheet (e.lastRow + 1) (colIdx "address" + 1) =
      CellVal.str TEXT_sum_month
  hrlsorted : st.rowLog.Pairwise (fun p q => p.1 < q.1)
  hrlbounds : ∀ p ∈ st.rowLog, 2 ≤ p.1 ∧ p.1 ≤ st.sheet.length
  hopen : ∀ p ∈ st.rowLog, st.from_row ≤ p.1 → st.last_month = some p.2
  hclosed : ∀ e ∈ st.sumLog, ∀ p ∈ st.rowLog,
    e.fromRow ≤ p.1 → p.1 ≤ e.lastRow → p.2 = e.month
  hdata : ∀ r, 2 ≤ r → r ≤ st.sheet.length →
    isIntCell (getCell st.sheet r 1) = true → ∃ m, (r, m) ∈ st.rowLog

/-- Last order with a given identifier in a batch prefix. -/
def occLast (P : List Order) (i : Int) : Option Order :=
  P.reverse.find? (fun o => o.id == i)

/-- The cell value the upsert forces into one of the four mutable
columns (2 = status, 21 = dispatch date, 22 = tracking code,
25 = delivery date). -/
def targetCell (o : Order) (c : Nat) : CellVal :=
  if c = 2 then statusCellOf o
  else if c = 21 then dateiCellOf o
  else if c = 22 then trackCellOf o
  else if c = 25 then deliverCellOf o
  else CellVal.empty

/-- Value of cell `(r, c)` after replaying a batch prefix `P` of
updates over the saved sheet `S` (with `ids` the identifier dict of
`S`): only the four mutable columns of dict rows with a processed
identifier differ from `S`, holding the last processed values. -/
def cellSpec (S : Sheet) (ids : List (CellVal × Nat)) (P : List Order)
    (r c : Nat) : CellVal :=
  if c = 2 ∨ c = 21 ∨ c = 22 ∨ c = 25 then
    match getCell S r 1 with
    | .int i =>
      match occLast P i with
      | some o' =>
        if dictLookup ids (.int i) = some r then targetCell o' c
        else getCell S r c
      | none => getCell S r c
    | _ => getCell S r c
  else getCell S r c

/-- Cell-for-cell equality of two sheets (same row count, same value in
every cell). -/
def SheetEq (a b : Sheet) : Prop :=
  a.length = b.length ∧ ∀ r c, 1 ≤ r → 1 ≤ c → getCell a r c = getCell b r c

/-- Lift of `SheetEq` to run results: both runs crash, or both save
cell-for-cell identical ledgers. -/
def OptSheetEq : Option Sheet → Option Sheet → Prop
  | some a, some b => SheetEq a b
  | none, none => True
  | _, _ => False

/-- Row-level form of the per-column SUM-formula fold of `add_sum_row`
(the sheet-level fold acts on the last row only, so it factors through
this function of the subtotal row alone). -/
def sumRowFold (names : List String) (fr last : Nat) (x : Row) : Row :=
  names.foldl (fun row name =>
    if name == "address" || name == "postcode" then row
    else (padRow row (colIdx name + 1)).set (colIdx name)
      (.str (sumFormula (colIdx name + 1) fr last))) x

/-- The complete subtotal row generated by `add_sum_row` as a function of
the integer-row count and the summed range. -/
def sumRowOf (cnt fr last : Nat) : Row :=
  sumRowFold COL_LIST fr last
    ((padRow ((padRow ([] : Row) (colIdx "address" + 1)).set (colIdx "address")
        (CellVal.str TEXT_sum_month)) (colIdx "postcode" + 1)).set
      (colIdx "postcode") (CellVal.int (Int.ofNat cnt)))

/-- The grand-total row appended by `append_totals`, as a function of the
subtotal-row indices alone. -/
def grandRowOf (sum_rows : List Nat) : Row :=
  [ .str "", .str "", .str "", .str "", .str "", .str "", .str "", .str "",
    .str "", .str TEXT_sum_all, .str (calcTotal sum_rows "postcode"),
    .str (calcTotal sum_rows "total"), .str (calcTotal sum_rows "shipping"),
    .str (calcTotal sum_rows "discount"),
    .str (calcTotal sum_rows "sepidar_discount"), .str "", .str "", .str "",
    .str (calcTotal sum_rows "item_total"), .str "", .str "", .str "",
    .str (calcTotal sum_rows "com_postal_payment"),
    .str (calcTotal sum_rows "com_postage") ]

/-- Invariant of the first run's upsert loop over an arbitrary starting
sheet `s0`, after processing the batch prefix `P`: the sheet only grows,
order-id cells of pre-existing rows are untouched, appended rows carry
only identifiers absent from the `existing_order_ids` dict, and for every
identifier processed so far the last row holding it stores the four
mutable cells of its last processed order. -/
structure Run1Inv (s0 : Sheet) (ids1 : List (CellVal × Nat)) (P : List Order)
    (st : LoopState) : Prop where
  hlen : s0.length ≤ st.sheet.length
  hfr : 1 ≤ st.from_row
  hold1 : ∀ r, 1 ≤ r → r ≤ s0.length →
    getCell st.sheet r 1 = getCell s0 r 1
  hnew1 : ∀ r j, s0.length < r → getCell st.sheet r 1 = CellVal.int j →
    dictLookup ids1 (CellVal.int j) = none
  hlast : ∀ i o, occLast P i = some o → ∃ r, 2 ≤ r ∧ r ≤ st.sheet.length ∧
    getCell st.sheet r 1 = CellVal.int i ∧
    getCell st.sheet r 2 = targetCell o 2 ∧
    getCell st.sheet r 21 = targetCell o 21 ∧
    getCell st.sheet r 22 = targetCell o 22 ∧
    getCell st.sheet r 25 = targetCell o 25 ∧
    ∀ r', r < r' → getCell st.sheet r' 1 ≠ CellVal.int i

/-- Invariant of the second run's upsert loop over the saved sheet `S`
of a successful first run, after processing the batch prefix `P`: the
loop sheet has the shape of `S` and every cell agrees with the
`cellSpec` replay of `P` over `S`. -/
structure Inv2 (S : Sheet) (P : List Order) (st : LoopState) : Prop where
  ilen : st.sheet.length = S.length
  ihead : st.sheet[0]? = S[0]?
  icell : ∀ r c, 1 ≤ r → 1 ≤ c →
    getCell st.sheet r c = cellSpec S (build_existing_ids S) P r c

/-- Attempt environment: two timeouts, then a successful page. -/
def envTwoTimeouts : Nat → FetchOutcome Nat :=
  fun i => if i < 2 then .timeout else .success [42]

/-- Attempt environment: every attempt times out. -/
def envAllTimeouts : Nat → FetchOutcome Nat := fun _ => .timeout

/-! ### Basic lemmas about the sheet model -/

theorem padRow_length (row : Row) (n : Nat) :
    (padRow row n).length = max row.length n := by
  simp [padRow]
  omega

theorem cellAt_pad (row : Row) (n c : Nat) :
    cellAt (padRow row n) c = cellAt row c := by
  unfold cellAt padRow
  rcases Nat.lt_or_ge (c - 1) row.length with h | h
  · rw [List.getElem?_append_left h]
  · rw [List.getElem?_append_right h, List.getElem?_eq_none h]
    rcases Nat.lt_or_ge (c - 1 - row.length) (n - row.length) with h2 | h2
    · rw [List.getElem?_replicate_of_lt h2]
      rfl
    · rw [List.getElem?_eq_none (by simpa using h2)]

theorem cellAt_set_ne (row : Row) (i c : Nat) (v : CellVal)
    (h : c - 1 ≠ i) : cellAt (row.set i v) c = cellAt row c := by
  unfold cellAt
  rw [List.getElem?_set_ne (fun hh => h hh.symm)]

theorem rowAt_append_replicate (s : Sheet) (k r : Nat) :
    rowAt (s ++ List.replicate k ([] : Row)) r = rowAt s r := by
  unfold rowAt
  rcases Nat.lt_or_ge (r - 1) s.length with h | h
  · rw [List.getElem?_append_left h]
  · rw [List.getElem?_append_right h, List.getElem?_eq_none h]
    rcases Nat.lt_or_ge (r - 1 - s.length) k with h2 | h2
    · rw [List.getElem?_replicate_of_lt h2]
      rfl
    · rw [List.getElem?_eq_none (by simpa using h2)]

theorem rowAt_set_ne (s : Sheet) (i : Nat) (row : Row) (r : Nat)
    (h : r - 1 ≠ i) : rowAt (s.set i row) r = rowAt s r := by
  unfold rowAt
  rw [List.getElem?_set_ne (fun hh => h hh.symm)]

theorem rowAt_set_self (s : Sheet) (i : Nat) (row : Row) (r : Nat)
    (hi : i < s.length) (hr : r = i + 1) : rowAt (s.set i row) r = row := by
  subst hr
  unfold rowAt
  simp [List.getElem?_set_self hi]

theorem setCell_length (s : Sheet) (r c : Nat) (v : CellVal) :
    (setCell s r c v).length = max s.length r := by
  unfold setCell
  simp
  omega

theorem getCell_setCell_ne (s : Sheet) (r c : Nat) (v : CellVal)
    (r' c' : Nat) (hr : 1 ≤ r) (hc : 1 ≤ c) (hr' : 1 ≤ r') (hc' : 1 ≤ c')
    (h : r' ≠ r ∨ c' ≠ c) :
    getCell (setCell s r c v) r' c' = getCell s r' c' := by
  unfold getCell setCell
  by_cases hrow : r' = r
  · rcases h with h | h
    · exact absurd hrow h
    · subst hrow
      rw [rowAt_set_self _ _ _ _ (by simp; omega) (by omega)]
      rw [cellAt_set_ne _ _ _ _ (by omega), cellAt_pad, rowAt_append_replicate]
  · rw [rowAt_set_ne _ _ _ _ (by omega), rowAt_append_replicate]

theorem getCell_setCell_self (s : Sheet) (r c : Nat) (v : CellVal)
    (hr : 1 ≤ r) (hc : 1 ≤ c) :
    getCell (setCell s r c v) r c = v := by
  unfold getCell setCell
  rw [rowAt_set_self _ _ _ _ (by simp; omega) (by omega)]
  unfold cellAt
  rw [List.getElem?_set_self (by rw [padRow_length]; omega)]
  rfl

theorem one_le_maxRow (s : Sheet) : 1 ≤ maxRow s := by
  unfold maxRow
  omega

theorem getCell_of_ge_length (s : Sheet) (r c : Nat) (h : s.length < r) :
    getCell s r c = .empty := by
  unfold getCell rowAt
  rw [List.getElem?_eq_none (by omega)]
  rfl

theorem appendRow_eq (s : Sheet) (row : Row) (h : s ≠ []) :
    appendRow s row = s ++ [row] := by
  unfold appendRow
  simp [List.isEmpty_iff, h]

theorem getCell_append_left (s t : Sheet) (r c : Nat)
    (hr : 1 ≤ r) (h : r ≤ s.length) :
    getCell (s ++ t) r c = getCell s r c := by
  unfold getCell rowAt
  rw [List.getElem?_append_left (by omega)]

/-! ### Column-index facts -/

theorem colIdx_status : colIdx "status" = 1 := by rfl

theorem colIdx_datei : colIdx "datei" = 20 := by rfl

theorem colIdx_tracking : colIdx "tracking_code" = 21 := by rfl

theorem colIdx_delivery : colIdx "delivery_date" = 24 := by rfl

theorem colIdx_total : colIdx "total" = 11 := by rfl

theorem colIdx_shipping : colIdx "shipping" = 12 := by rfl

theorem colIdx_com_postal : colIdx "com_postal_payment" = 22 := by rfl

theorem colIdx_com_postage : colIdx "com_postage" = 23 := by rfl

/-! ### The update branch touches only its four cells -/

theorem getCell_updateCellIfChanged_ne (s : Sheet) (r c : Nat)
    (cur : CellVal) (r' c' : Nat) (hr : 1 ≤ r) (hc : 1 ≤ c)
    (hr' : 1 ≤ r') (hc' : 1 ≤ c') (h : r' ≠ r ∨ c' ≠ c) :
    getCell (updateCellIfChanged s r c cur) r' c' = getCell s r' c' := by
  unfold updateCellIfChanged
  split
  · exact getCell_setCell_ne s r c cur r' c' hr hc hr' hc' h
  · rfl

theorem updateExisting_frame (sheet : Sheet) (row_index : Nat) (o : Order)
    (r c : Nat) (hR : 1 ≤ row_index) (hr : 1 ≤ r) (hc : 1 ≤ c)
    (h : ¬(r = row_index ∧ (c = 2 ∨ c = 21 ∨ c = 22 ∨ c = 25))) :
    getCell (updateExisting sheet row_index o) r c = getCell sheet r c := by
  have hne : ∀ k : Nat, (r = row_index → c ≠ k) → (r ≠ row_index ∨ c ≠ k) := by
    intro k hk
    by_cases hrr : r = row_index
    · exact Or.inr (hk hrr)
    · exact Or.inl hrr
  unfold updateExisting
  rw [getCell_updateCellIfChanged_ne _ _ _ _ _ _ hR (by rw [colIdx_delivery]; omega)
    hr hc (hne _ (fun hrr => by rw [colIdx_delivery]; omega))]
  rw [getCell_updateCellIfChanged_ne _ _ _ _ _ _ hR (by rw [colIdx_tracking]; omega)
    hr hc (hne _ (fun hrr => by rw [colIdx_tracking]; omega))]
  rw [getCell_updateCellIfChanged_ne _ _ _ _ _ _ hR (by rw [colIdx_datei]; omega)
    hr hc (hne _ (fun hrr => by rw [colIdx_datei]; omega))]
  split
  · rw [getCell_setCell_ne _ _ _ _ _ _ hR (by rw [colIdx_status]; omega)
      hr hc (hne _ (fun hrr => by rw [colIdx_status]; omega))]
  · rfl

/-! ### Claim C2: end-of-batch subtotal regeneration -/

/-- C2: the claim states that for every input ledger state — including a
newly created file whose new orders all fall in a single month —
`write_to_excel` regenerates exactly one trailing SubtotalRow and one
GrandTotalRow and saves the file.  On a fresh file whose batch spans a
single Jalali month no subtotal row exists when line 479 runs, so
`sum_rows[-1]` raises `IndexError` and the file is never saved: the run
evaluates to `none` both for a one-order batch and a two-order
same-month batch. -/
theorem fresh_single_month_batch_crashes :
    write_to_excel none [orderA] = none ∧
    write_to_excel none [orderA, orderA2] = none := by
  exact ⟨rfl, rfl⟩

/-! ### Claim C3: a null paid timestamp aborts the whole batch -/

/-- C3: the claim states a record with a `None` paid timestamp is kept
dateless (empty date cell), excluded from bucketing, and the batch
continues.  The projector `create_order_row` indeed leaves the date cell
empty (first conjunct), but the `write_to_excel` loop calls
`convert_to_jalali(order['date_paid'])` on every order before any
null-check (line 407), so a batch that succeeds without the dateless
order (second conjunct) aborts with an `AttributeError` — unsaved — once
the dateless order is appended to it (third conjunct). -/
theorem null_date_paid_aborts_batch :
    (create_order_row orderNullDate).bind (fun r => r[2]?) =
      some (CellVal.str "") ∧
    (write_to_excel none demoBatch).isSome = true ∧
    write_to_excel none (demoBatch ++ [orderNullDate]) = none := by
  exact ⟨rfl, rfl, rfl⟩

/-! ### Claim C10: missing birthday metadata raises in `create_order_row` -/

/-- C10: for every order whose metadata has no `_billing_field_529`
entry, `find_meta_value` returns `None` and `create_order_row`
dereferences it (`birthday.translate(...)`), raising instead of
producing a row with an empty birthday cell; hence inserting such an
order fails, and a batch containing such a new order aborts unsaved. -/
theorem missing_birthday_meta_raises :
    (∀ o : Order, find_meta_value o "_billing_field_529" = none →
      create_order_row o = none ∧ ∀ sheet : Sheet, insertNewOrder sheet o = none) ∧
    write_to_excel none [orderA, orderB, orderNoBirthday] = none := by
  refine ⟨fun o h => ?_, rfl⟩
  have hc : create_order_row o = none := by
    unfold create_order_row
    rw [h]
    split
    all_goals try rfl
    rename_i x dp heq
    cases convert_to_jalali dp <;> rfl
  refine ⟨hc, fun sheet => ?_⟩
  unfold insertNewOrder
  rw [hc]

/-- Witness for C10 at the concrete order `orderNoBirthday`. -/
theorem missing_birthday_meta_raises_witness :
    create_order_row orderNoBirthday = none ∧
    insertNewOrder demoRun1.sheet orderNoBirthday = none := by
  have h := missing_birthday_meta_raises.1 orderNoBirthday (by rfl)
  exact ⟨h.1, h.2 demoRun1.sheet⟩

/-! ### Claim C6: mail-merge phone normalization -/

/-- C6 counterexample: the claim says every phone value that is 9 digits
long and begins with `"9"` gets a leading `"0"`.  The code requires
length exactly 10 (`len(phone_number) == 10`), so the 9-digit value
`"912345678"` passes through unchanged, not prefixed. -/
theorem phone_nine_digit_rule_false :
    process_phone "912345678" = "912345678" ∧
    ("912345678" : String) ≠ "0" ++ "912345678" := by
  exact ⟨rfl, by decide⟩

/-- C6 amended: the trailing `".0"` artifact is stripped first; then
every phone value that is 10 characters long and begins with `"9"` has a
leading `"0"` prefixed (reaching 11 digits); in particular
`"9123456789"` maps to `"09123456789"`, and `"912345678.0"` is stripped
to `"912345678"` before the length rule is evaluated (and is then left
unchanged). -/
theorem phone_normalization_ten_digit :
    (∀ raw : String, startsWithNine (strip_dot_zero (stripStr raw)) = true →
      (strip_dot_zero (stripStr raw)).data.length = 10 →
      process_phone raw = "0" ++ strip_dot_zero (stripStr raw)) ∧
    process_phone "9123456789" = "09123456789" ∧
    process_phone "912345678.0" = "912345678" := by
  refine ⟨fun raw h1 h2 => ?_, rfl, rfl⟩
  unfold process_phone
  simp [h1, h2]

/-- Witness for C6 amended at the concrete value `"9123456780"`. -/
theorem phone_normalization_ten_digit_witness :
    process_phone "9123456780" = "0" ++ strip_dot_zero (stripStr "9123456780") := by
  exact phone_normalization_ten_digit.1 "9123456780" (by rfl) (by rfl)

/-! ### Claim C4: the upsert touches only the four mutable cells -/

/-- C4: for an order whose identifier already exists, the update branch
of the upsert (`updateExisting`, lines 412-444) changes at most the four
mutable cells of that order's row — status (column 2), dispatch date
(column 21), tracking code (column 22) and delivery date (column 25) —
and every other cell of the ledger, including manual edits outside the
managed columns, reads identically before and after. -/
theorem upsert_touches_only_mutable_cells :
    ∀ (sheet : Sheet) (row_index : Nat) (o : Order) (r c : Nat),
      1 ≤ row_index → 1 ≤ r → 1 ≤ c →
      ¬(r = row_index ∧ (c = colIdx "status" + 1 ∨ c = colIdx "datei" + 1 ∨
          c = colIdx "tracking_code" + 1 ∨ c = colIdx "delivery_date" + 1)) →
      getCell (updateExisting sheet row_index o) r c = getCell sheet r c := by
  intro sheet row_index o r c hR hr hc h
  rw [colIdx_status, colIdx_datei, colIdx_tracking, colIdx_delivery] at h
  exact updateExisting_frame sheet row_index o r c hR hr hc (by omega)

/-- Witness for C4: updating `orderB` over its existing row 5 of the
demo ledger leaves the order-id cell of row 5 and the cells of row 2
unchanged. -/
theorem upsert_touches_only_mutable_cells_witness :
    getCell (updateExisting demoRun1.sheet 5 orderB) 5 1 =
      getCell demoRun1.sheet 5 1 ∧
    getCell (updateExisting demoRun1.sheet 5 orderB) 2 12 =
      getCell demoRun1.sheet 2 12 := by
  exact ⟨upsert_touches_only_mutable_cells demoRun1.sheet 5 orderB 5 1
      (by decide) (by decide) (by decide) (by decide),
    upsert_touches_only_mutable_cells demoRun1.sheet 5 orderB 2 12
      (by decide) (by decide) (by decide) (by decide)⟩

/-! ### Claim C7: the company-postage formula -/

/-- C7 counterexample: the claim says the company-postage cell stores
the formula (total column) minus (company-postal-payment column).  The
source hardcodes `f"=M{row} - W{row}"`, and column `M` (13) is the
shipping column — the total column is `L` (12) — so the stored formula
is not the claimed one. -/
theorem com_postage_not_total_minus_payment :
    getCell demoRun1.sheet 2 (colIdx "com_postage" + 1) =
      CellVal.str "=M2 - W2" ∧
    get_column_letter (colIdx "total" + 1) = "L" ∧
    get_column_letter (colIdx "shipping" + 1) = "M" ∧
    getCell demoRun1.sheet 2 (colIdx "com_postage" + 1) ≠
      CellVal.str ("=" ++ get_column_letter (colIdx "total" + 1) ++
        toString (2 : Nat) ++ " - " ++
        get_column_letter (colIdx "com_postal_payment" + 1) ++
        toString (2 : Nat)) := by
  exact ⟨rfl, rfl, rfl, by decide⟩

/-- C7 amended: for every newly inserted order row, the company-postage
cell is stored as a live formula equal to that row's value in the
shipping column minus that row's value in the company-postal-payment
column (`=M{row} - W{row}`, with `M` the shipping column and `W` the
company-postal-payment column). -/
theorem com_postage_is_shipping_minus_payment :
    ∀ (sheet : Sheet) (o : Order) (sh : Sheet) (ri : Nat),
      insertNewOrder sheet o = some (sh, ri) →
      getCell sh ri (colIdx "com_postage" + 1) =
        CellVal.str ("=" ++ get_column_letter (colIdx "shipping" + 1) ++
          toString ri ++ " - " ++
          get_column_letter (colIdx "com_postal_payment" + 1) ++ toString ri) := by
  intro sheet o sh ri h
  unfold insertNewOrder at h
  cases hcr : create_order_row o with
  | none => rw [hcr] at h; exact absurd h (by simp)
  | some row =>
    rw [hcr] at h
    simp only [Option.some.injEq, Prod.mk.injEq] at h
    obtain ⟨hsh, hri⟩ := h
    subst hsh
    subst hri
    rw [getCell_setCell_self _ _ _ _ (one_le_maxRow _) (by omega)]
    show CellVal.str _ = _
    congr 1
    unfold comPostageFormula
    rw [show get_column_letter (colIdx "shipping" + 1) = "M" from rfl,
      show get_column_letter (colIdx "com_postal_payment" + 1) = "W" from rfl,
      show ("=" : String) ++ "M" = "=M" from rfl,
      String.append_assoc ("=M" ++ toString (maxRow (appendRow sheet row))) " - " "W",
      show (" - " : String) ++ "W" = " - W" from rfl]

/-- Witness for C7 amended: inserting `orderC` into the demo ledger. -/
theorem com_postage_is_shipping_minus_payment_witness :
    getCell ((insertNewOrder demoRun1.sheet orderC).getD ([], 0)).1
        ((insertNewOrder demoRun1.sheet orderC).getD ([], 0)).2
        (colIdx "com_postage" + 1) =
      CellVal.str ("=" ++ get_column_letter (colIdx "shipping" + 1) ++
        toString ((insertNewOrder demoRun1.sheet orderC).getD ([], 0)).2 ++
        " - " ++ get_column_letter (colIdx "com_postal_payment" + 1) ++
        toString ((insertNewOrder demoRun1.sheet orderC).getD ([], 0)).2) := by
  exact com_postage_is_shipping_minus_payment demoRun1.sheet orderC _ _ (by rfl)

/-! ### Claim C8: retry / timeout escalation in `fetch_page` -/

theorem fetchAttempts_timeout_shape {α : Type} (base : Nat)
    (env : Nat → FetchOutcome α) :
    ∀ (f a : Nat), ∃ k, k ≤ f ∧ (1 ≤ f → 1 ≤ k) ∧
      (fetchAttempts base env a f).1 =
        (List.range' a k).map (fun i => base + 5 * i) := by
  intro f
  induction f with
  | zero => exact fun a => ⟨0, Nat.le_refl 0, by omega, rfl⟩
  | succ n ih =>
    intro a
    cases henv : env a with
    | success p =>
      refine ⟨1, by omega, fun _ => Nat.le_refl 1, ?_⟩
      simp [fetchAttempts, henv]
    | timeout =>
      by_cases hn : n > 0
      · obtain ⟨k, hk, hk1, hl⟩ := ih (a + 1)
        refine ⟨k + 1, by omega, by omega, ?_⟩
        simp only [fetchAttempts, henv, if_pos hn]
        rw [List.range'_succ]
        simp [hl]
      · have hn0 : n = 0 := by omega
        subst hn0
        refine ⟨1, by omega, fun _ => Nat.le_refl 1, ?_⟩
        simp [fetchAttempts, henv]
    | connError =>
      by_cases hn : n > 0
      · obtain ⟨k, hk, hk1, hl⟩ := ih (a + 1)
        refine ⟨k + 1, by omega, by omega, ?_⟩
        simp only [fetchAttempts, henv, if_pos hn]
        rw [List.range'_succ]
        simp [hl]
      · have hn0 : n = 0 := by omega
        subst hn0
        refine ⟨1, by omega, fun _ => Nat.le_refl 1, ?_⟩
        simp [fetchAttempts, henv]
    | httpError =>
      refine ⟨1, by omega, fun _ => Nat.le_refl 1, ?_⟩
      simp [fetchAttempts, henv]
    | reqError =>
      refine ⟨1, by omega, fun _ => Nat.le_refl 1, ?_⟩
      simp [fetchAttempts, henv]
    | unexpected =>
      refine ⟨1, by omega, fun _ => Nat.le_refl 1, ?_⟩
      simp [fetchAttempts, henv]

/-- C8: on a timeout or connection-establishment failure `fetch_page`
retries up to the 3-attempt ceiling and every attempt uses the timeout
`base + 5 * attempt`, strictly increasing from the configured base; for
2 consecutive timeouts (or connection failures) followed by a success it
issues exactly 3 attempts and returns the successful page's payload; on
exhausting all retries it returns an empty list rather than raising. -/
theorem fetch_page_retry_escalation :
    ∀ (base : Nat) (env envT : Nat → FetchOutcome Nat) (p : List Nat),
      (env 0 = .timeout ∨ env 0 = .connError) →
      (env 1 = .timeout ∨ env 1 = .connError) →
      env 2 = .success p →
      (∀ i, i < 3 → envT i = .timeout ∨ envT i = .connError) →
      fetch_page base env 3 = ([base, base + 5, base + 10], some p) ∧
      fetch_page base envT 3 = ([base, base + 5, base + 10], some []) ∧
      ∀ env2 : Nat → FetchOutcome Nat, ∃ k, 1 ≤ k ∧ k ≤ 3 ∧
        (fetch_page base env2 3).1 =
          (List.range' 0 k).map (fun i => base + 5 * i) := by
  intro base env envT p h0 h1 h2 hT
  refine ⟨?_, ?_, ?_⟩
  · rcases h0 with h0 | h0 <;> rcases h1 with h1 | h1 <;>
      simp [fetch_page, fetchAttempts, h0, h1, h2]
  · have e0 := hT 0 (by omega)
    have e1 := hT 1 (by omega)
    have e2 := hT 2 (by omega)
    rcases e0 with e0 | e0 <;> rcases e1 with e1 | e1 <;>
      rcases e2 with e2 | e2 <;>
      simp [fetch_page, fetchAttempts, e0, e1, e2]
  · intro env2
    obtain ⟨k, hk, hk1, hl⟩ := fetchAttempts_timeout_shape base env2 3 0
    exact ⟨k, hk1 (by omega), hk, hl⟩

/-- Witness for C8 with base timeout 7: two timeouts then success, and
all-timeouts exhaustion. -/
theorem fetch_page_retry_escalation_witness :
    fetch_page 7 envTwoTimeouts 3 = ([7, 7 + 5, 7 + 10], some [42]) ∧
    fetch_page 7 envAllTimeouts 3 = ([7, 7 + 5, 7 + 10], some []) := by
  have h := fetch_page_retry_escalation 7 envTwoTimeouts envAllTimeouts [42]
    (Or.inl rfl) (Or.inl rfl) rfl (fun i _ => Or.inl rfl)
  exact ⟨h.1, h.2.1⟩

/-! ### Claim C9: cancelled and pending orders never reach the ledger -/

theorem mem_insertById (o a : Order) :
    ∀ l : List Order, a ∈ insertById o l ↔ a = o ∨ a ∈ l := by
  intro l
  induction l with
  | nil => simp [insertById]
  | cons x xs ih =>
    unfold insertById
    by_cases h : o.id ≤ x.id
    · simp [h]
    · simp only [if_neg h, List.mem_cons, ih]
      tauto

theorem mem_sort_orders (a : Order) :
    ∀ l : List Order, a ∈ sort_orders l ↔ a ∈ l := by
  intro l
  induction l with
  | nil => simp [sort_orders]
  | cons x xs ih => simp [sort_orders, mem_insertById, ih]

/-- C9: the `__main__` block filters out every fetched order whose
status is `'cancelled'` or `'pending'` before sorting and
reconciliation: the batch handed to `write_to_excel` contains exactly
the other orders, so cancelled/pending records are never inserted and
never update a row — the ledger mirrors only that subset. -/
theorem cancelled_pending_never_reach_ledger :
    ∀ (file : Option Sheet) (all_orders : List Order) (o : Order),
      (o ∈ main_batch all_orders ↔
        o ∈ all_orders ∧ o.status ≠ "cancelled" ∧ o.status ≠ "pending") ∧
      reconcile_cycle file all_orders =
        write_to_excel file (main_batch all_orders) := by
  intro file all_orders o
  refine ⟨?_, rfl⟩
  unfold main_batch filter_orders
  rw [mem_sort_orders]
  simp [List.mem_filter]

/-! ### Structural lemmas about appends, product rows and subtotal rows -/

theorem maxRow_eq_length (s : Sheet) (h : s ≠ []) : maxRow s = s.length := by
  unfold maxRow
  have : 1 ≤ s.length := List.length_pos.mpr h
  omega

theorem appendRow_ne_nil (s : Sheet) (row : Row) : appendRow s row ≠ [] := by
  unfold appendRow
  split <;> simp

theorem appendRow_length (s : Sheet) (row : Row) (h : s ≠ []) :
    (appendRow s row).length = s.length + 1 := by
  rw [appendRow_eq s row h]
  simp

theorem getCell_appendRow_le (s : Sheet) (row : Row) (r c : Nat)
    (h : s ≠ []) (hr : 1 ≤ r) (hle : r ≤ s.length) :
    getCell (appendRow s row) r c = getCell s r c := by
  rw [appendRow_eq s row h]
  exact getCell_append_left s [row] r c hr hle

theorem getCell_appendRow_new (s : Sheet) (row : Row) (c : Nat) (h : s ≠ []) :
    getCell (appendRow s row) (s.length + 1) c = cellAt row c := by
  rw [appendRow_eq s row h]
  unfold getCell rowAt
  rw [List.getElem?_append_right (by omega)]
  simp

theorem head?_appendRow (s : Sheet) (row : Row) (h : s ≠ []) :
    (appendRow s row)[0]? = s[0]? := by
  rw [appendRow_eq s row h]
  rw [List.getElem?_append_left (List.length_pos.mpr h)]

theorem head?_setCell (s : Sheet) (r c : Nat) (v : CellVal) (hr : 2 ≤ r)
    (hs : s ≠ []) : (setCell s r c v)[0]? = s[0]? := by
  unfold setCell
  rw [List.getElem?_set_ne (by omega)]
  rw [List.getElem?_append_left (List.length_pos.mpr hs)]

theorem getCell_of_head? (s : Sheet) (row : Row) (h : s[0]? = some row)
    (c : Nat) : getCell s 1 c = cellAt row c := by
  unfold getCell rowAt
  simp [h]

/-- Facts about the product-row append loop of `write_products`. -/
theorem productsFold_facts (items : List LineItem) :
    ∀ s : Sheet, s ≠ [] →
      (items.foldl (fun sh it => appendRow sh (productRow it)) s) ≠ [] ∧
      (items.foldl (fun sh it => appendRow sh (productRow it)) s).length =
        s.length + items.length ∧
      (items.foldl (fun sh it => appendRow sh (productRow it)) s)[0]? = s[0]? ∧
      (∀ r c, 1 ≤ r → r ≤ s.length →
        getCell (items.foldl (fun sh it => appendRow sh (productRow it)) s) r c =
          getCell s r c) ∧
      (∀ r, s.length < r →
        isIntCell (getCell
          (items.foldl (fun sh it => appendRow sh (productRow it)) s) r 1) =
          false) := by
  induction items with
  | nil =>
    intro s hs
    refine ⟨hs, by simp, rfl, fun r c _ _ => rfl, fun r hr => ?_⟩
    simp only [List.foldl_nil]
    rw [getCell_of_ge_length s r 1 hr]
    rfl
  | cons it rest ih =>
    intro s hs
    have hs' : appendRow s (productRow it) ≠ [] := appendRow_ne_nil s _
    obtain ⟨h1, h2, h3, h4, h5⟩ := ih (appendRow s (productRow it)) hs'
    refine ⟨h1, ?_, ?_, ?_, ?_⟩
    · rw [List.foldl_cons, h2, appendRow_length s _ hs]
      simp [List.length_cons]
      omega
    · rw [List.foldl_cons, h3, head?_appendRow s _ hs]
    · intro r c hr hle
      rw [List.foldl_cons,
        h4 r c hr (by rw [appendRow_length s _ hs]; omega),
        getCell_appendRow_le s _ r c hs hr hle]
    · intro r hr
      rw [List.foldl_cons]
      rcases Nat.lt_or_ge (s.length + 1) r with hgt | hle2
      · exact h5 r (by rw [appendRow_length s _ hs]; omega)
      · have hreq : r = s.length + 1 := by omega
        subst hreq
        rw [h4 _ _ (by omega) (by rw [appendRow_length s _ hs])]
        rw [getCell_appendRow_new s _ 1 hs]
        rfl

theorem set_append_last {α : Type} (s : List α) (x y : α) :
    (s ++ [x]).set s.length y = s ++ [y] := by
  induction s with
  | nil => rfl
  | cons a as ih => simp [List.set_cons_succ, ih]

theorem insertEmptyRow_at_end (s : Sheet) :
    insertEmptyRow s (s.length + 1) = s ++ [[]] := by
  unfold insertEmptyRow
  simp

theorem setCell_append_last (s : Sheet) (x : Row) (c : Nat) (v : CellVal) :
    setCell (s ++ [x]) (s.length + 1) c v =
      s ++ [(padRow x c).set (c - 1) v] := by
  unfold setCell
  have h1 : rowAt (s ++ [x]) (s.length + 1) = x := by
    unfold rowAt
    rw [List.getElem?_append_right (by omega)]
    simp
  simp only [List.length_append, List.length_singleton, Nat.sub_self,
    List.replicate_zero, List.append_nil, Nat.add_sub_cancel, h1]
  exact set_append_last s x _

theorem count_integer_rows_header (s : Sheet) (a b : Nat)
    (hh : s[0]? = some headerRow) :
    ∃ cnt, count_integer_rows s (headerLabel "order_id") a b = some cnt := by
  unfold count_integer_rows
  rw [hh]
  dsimp only [Option.getD_some]
  rw [show (headerRow.findIdx?
    (fun v => v == CellVal.str (headerLabel "order_id"))) = some 0 from rfl]
  exact ⟨_, rfl⟩

theorem foldl_sumcols_shape (names : List String) :
    ∀ (s : Sheet) (x : Row) (fr last : Nat),
    (∀ name ∈ names, (name == "address" || name == "postcode") = true ∨
        11 ≤ colIdx name + 1) →
    ∃ y, names.foldl (fun sh name =>
        if name == "address" || name == "postcode" then sh
        else setCell sh (s.length + 1) (colIdx name + 1)
          (.str (sumFormula (colIdx name + 1) fr last))) (s ++ [x]) =
      s ++ [y] ∧ ∀ c, c ≤ 10 → cellAt y c = cellAt x c := by
  induction names with
  | nil => exact fun s x fr last _ => ⟨x, rfl, fun c _ => rfl⟩
  | cons name rest ih =>
    intro s x fr last hcols
    by_cases hskip : (name == "address" || name == "postcode") = true
    · rw [List.foldl_cons, if_pos hskip]
      exact ih s x fr last (fun n hn => hcols n (List.mem_cons_of_mem _ hn))
    · have hcol : 11 ≤ colIdx name + 1 := by
        rcases hcols name (List.mem_cons_self _ _) with h | h
        · exact absurd h hskip
        · exact h
      rw [List.foldl_cons, if_neg hskip, setCell_append_last]
      obtain ⟨y, hy, hcells⟩ :=
        ih s ((padRow x (colIdx name + 1)).set ((colIdx name + 1) - 1)
          (.str (sumFormula (colIdx name + 1) fr last))) fr last
          (fun n hn => hcols n (List.mem_cons_of_mem _ hn))
      refine ⟨y, hy, fun c hc => ?_⟩
      rw [hcells c hc, cellAt_set_ne _ _ _ _ (by omega), cellAt_pad]

/-- Structure of `add_sum_row` when called, as in the source, with
`last_row = sheet.max_row`: it appends exactly one subtotal row whose
order-id cell is empty and whose address cell carries the label. -/
theorem add_sum_row_shape (s : Sheet) (fr : Nat)
    (hs : s ≠ []) (hh : s[0]? = some headerRow) :
    ∃ srow, add_sum_row s fr (maxRow s) COL_LIST =
        some (s ++ [srow], s.length + 1) ∧
      cellAt srow 1 = CellVal.empty ∧
      cellAt srow (colIdx "address" + 1) = CellVal.str TEXT_sum_month := by
  have hml : maxRow s = s.length := maxRow_eq_length s hs
  unfold add_sum_row
  rw [hml]
  dsimp only
  rw [insertEmptyRow_at_end, setCell_append_last]
  have hh2 : (s ++ [(padRow ([] : Row) (colIdx "address" + 1)).set
      ((colIdx "address" + 1) - 1) (CellVal.str TEXT_sum_month)])[0]? =
      some headerRow := by
    rw [List.getElem?_append_left (List.length_pos.mpr hs)]
    exact hh
  obtain ⟨cnt, hcnt⟩ := count_integer_rows_header _ fr s.length hh2
  rw [hcnt]
  dsimp only
  rw [setCell_append_last]
  obtain ⟨y, hy, hcells⟩ := foldl_sumcols_shape COL_LIST s
    ((padRow ((padRow ([] : Row) (colIdx "address" + 1)).set
        ((colIdx "address" + 1) - 1) (CellVal.str TEXT_sum_month))
      (colIdx "postcode" + 1)).set ((colIdx "postcode" + 1) - 1)
        (CellVal.int (Int.ofNat cnt)))
    fr s.length (by decide)
  rw [hy]
  refine ⟨y, rfl, ?_, ?_⟩
  · rw [hcells 1 (by omega), cellAt_set_ne _ _ _ _ (by decide), cellAt_pad]
    rfl
  · rw [hcells (colIdx "address" + 1) (by decide),
      cellAt_set_ne _ _ _ _ (by decide), cellAt_pad]
    rfl

theorem getCell_append_new (s : Sheet) (x : Row) (c : Nat) :
    getCell (s ++ [x]) (s.length + 1) c = cellAt x c := by
  unfold getCell rowAt
  rw [List.getElem?_append_right (by omega)]
  simp

theorem setCell_ne_nil (s : Sheet) (r c : Nat) (v : CellVal) (hr : 1 ≤ r) :
    setCell s r c v ≠ [] := by
  have h := setCell_length s r c v
  intro hnil
  rw [hnil] at h
  simp at h
  omega

/-- Combined description of `insertNewOrder` on a nonempty sheet: the
projected row lands on row `length + 1`, followed by its product child
rows (whose order-id cells are not integers), with the company-postage
formula written into the order row. -/
theorem insertNewOrder_facts (s : Sheet) (o : Order) (hs : s ≠ [])
    (row : Row) (hcr : create_order_row o = some row) :
    ∃ t, insertNewOrder s o = some (t, s.length + 1) ∧
      t ≠ [] ∧
      t.length = s.length + 1 + o.line_items.length ∧
      t[0]? = s[0]? ∧
      (∀ r c, 1 ≤ r → 1 ≤ c → r ≤ s.length → getCell t r c = getCell s r c) ∧
      (∀ r, s.length + 1 < r → isIntCell (getCell t r 1) = false) ∧
      (∀ c, 1 ≤ c → c ≠ colIdx "com_postage" + 1 →
        getCell t (s.length + 1) c = cellAt row c) ∧
      getCell t (s.length + 1) (colIdx "com_postage" + 1) =
        CellVal.str (comPostageFormula (s.length + 1)) := by
  have hlen1 : 1 ≤ s.length := List.length_pos.mpr hs
  have h1 : appendRow s row ≠ [] := appendRow_ne_nil _ _
  have hal : (appendRow s row).length = s.length + 1 := appendRow_length s row hs
  have hmr : maxRow (appendRow s row) = s.length + 1 := by
    rw [maxRow_eq_length _ h1, hal]
  obtain ⟨hne, hlen2, hhead2, hframe2, hcol1⟩ :=
    productsFold_facts o.line_items (appendRow s row) h1
  unfold insertNewOrder
  rw [hcr]
  dsimp only
  rw [hmr]
  refine ⟨_, rfl, ?_, ?_, ?_, ?_, ?_, ?_, ?_⟩
  · exact setCell_ne_nil _ _ _ _ (by omega)
  · rw [setCell_length, hlen2, hal]
    omega
  · rw [head?_setCell _ _ _ _ (by omega) hne, hhead2, head?_appendRow s row hs]
  · intro r c hr hc hle
    rw [getCell_setCell_ne _ _ _ _ _ _ (by omega) (by omega) hr hc
        (Or.inl (by omega))]
    rw [hframe2 r c hr (by omega)]
    exact getCell_appendRow_le s row r c hs hr hle
  · intro r hrgt
    rw [getCell_setCell_ne _ _ _ _ _ _ (by omega) (by omega) (by omega)
        (by omega) (Or.inl (by omega))]
    exact hcol1 r (by omega)
  · intro c hc hcne
    rw [getCell_setCell_ne _ _ _ _ _ _ (by omega) (by omega) (by omega) hc
        (Or.inr hcne)]
    rw [hframe2 _ c (by omega) (by omega)]
    exact getCell_appendRow_new s row c hs
  · exact getCell_setCell_self _ _ _ _ (by omega) (by omega)

theorem pairwise_lt_range' (s n : Nat) :
    (List.range' s n).Pairwise (· < ·) := by
  induction n generalizing s with
  | zero => simp
  | succ k ih =>
    rw [List.range'_succ]
    refine List.pairwise_cons.mpr ⟨?_, ih (s + 1)⟩
    intro m hm
    have := List.mem_range'_1.mp hm
    omega

theorem mem_find_sum_rows (s : Sheet) (r : Nat) :
    r ∈ find_sum_rows s ↔ 2 ≤ r ∧ r ≤ maxRow s ∧
      getCell s r (colIdx "address" + 1) = CellVal.str TEXT_sum_month := by
  unfold find_sum_rows
  rw [List.mem_filter, List.mem_range'_1]
  have h1 : 1 ≤ maxRow s := one_le_maxRow s
  constructor
  · rintro ⟨⟨ha, hb⟩, hc⟩
    exact ⟨ha, by omega, by simpa using hc⟩
  · rintro ⟨ha, hb, hc⟩
    exact ⟨⟨ha, by omega⟩, by simpa using hc⟩

theorem find_sum_rows_sorted (s : Sheet) :
    (find_sum_rows s).Pairwise (· < ·) := by
  unfold find_sum_rows
  exact (pairwise_lt_range' 2 (maxRow s - 1)).filter _

theorem le_getLast_of_sorted (l : List Nat) (hl : l.Pairwise (· < ·)) :
    ∀ a, a ∈ l → ∀ b, l.getLast? = some b → a ≤ b := by
  induction l with
  | nil => simp
  | cons x xs ih =>
    intro a ha b hb
    rcases List.mem_cons.mp ha with rfl | ha'
    · cases xs with
      | nil =>
        simp only [List.getLast?_singleton, Option.some.injEq] at hb
        omega
      | cons y ys =>
        rw [List.getLast?_cons_cons] at hb
        have hbm : b ∈ y :: ys := List.mem_of_mem_getLast? hb
        have := (List.pairwise_cons.mp hl).1 b hbm
        omega
    · cases xs with
      | nil => simp at ha'
      | cons y ys =>
        rw [List.getLast?_cons_cons] at hb
        exact ih (List.pairwise_cons.mp hl).2 a ha' b hb

theorem rowLogMonth_of_mem :
    ∀ (log : List (Nat × String)),
      log.Pairwise (fun p q => p.1 < q.1) →
      ∀ (r : Nat) (m : String), (r, m) ∈ log → rowLogMonth log r = some m := by
  intro log
  induction log with
  | nil => simp
  | cons p rest ih =>
    intro hs r m h
    rcases List.mem_cons.mp h with rfl | h'
    · unfold rowLogMonth
      simp [List.find?]
    · have hlt : p.1 < r := by
        have := (List.pairwise_cons.mp hs).1 (r, m) h'
        exact this
      unfold rowLogMonth
      rw [List.find?_cons_of_neg _ (by simp; omega)]
      exact ih (List.pairwise_cons.mp hs).2 r m h'

/-- One loop iteration of a fresh-file run preserves `FreshInv`. -/
theorem freshInv_step (st : LoopState) (o : Order) (st' : LoopState)
    (hInv : FreshInv st) (hstep : procOrder [] st o = some st') :
    FreshInv st' := by
  have hsne : st.sheet ≠ [] := by
    intro h
    have := hInv.hlen
    rw [h] at this
    simp at this
  have hlenpos : 1 ≤ st.sheet.length := hInv.hlen
  unfold procOrder at hstep
  cases hdp : o.date_paid with
  | none => rw [hdp] at hstep; simp at hstep
  | some dp =>
    rw [hdp] at hstep
    dsimp only at hstep
    cases hcv : convert_to_jalali dp with
    | none => rw [hcv] at hstep; simp at hstep
    | some jdp =>
      rw [hcv] at hstep
      obtain ⟨jd, tp⟩ := jdp
      dsimp only at hstep
      rw [show dictLookup [] (CellVal.int o.id) = none from rfl] at hstep
      dsimp only at hstep
      by_cases hcm : monthKey jd ≠ st.last_month.getD (monthKey jd)
      · -- month change: close the open bucket, then insert
        rw [if_pos hcm] at hstep
        obtain ⟨srow, hadd, hsrow1, hsrow10⟩ :=
          add_sum_row_shape st.sheet st.from_row hsne hInv.hheader
        rw [hadd] at hstep
        dsimp only at hstep
        cases hcr : create_order_row o with
        | none =>
          rw [show insertNewOrder (st.sheet ++ [srow]) o = none from by
            unfold insertNewOrder; rw [hcr]] at hstep
          simp at hstep
        | some row =>
          obtain ⟨t, hins, htne, htlen, hthead, htframe, htcol1, htnew, htcp⟩ :=
            insertNewOrder_facts (st.sheet ++ [srow]) o (by simp) row hcr
          rw [hins] at hstep
          dsimp only at hstep
          have hstB : st' = ⟨t, some (monthKey jd),
              maxRow (st.sheet ++ [srow]) + 1, st.new_count + 1,
              st.sumLog ++ [⟨st.from_row, maxRow st.sheet,
                st.last_month.getD (monthKey jd)⟩],
              st.rowLog ++ [((st.sheet ++ [srow]).length + 1, monthKey jd)]⟩ := by
            injection hstep with h
            exact h.symm
          subst hstB
          have hmr1 : maxRow st.sheet = st.sheet.length :=
            maxRow_eq_length _ hsne
          have hmr2 : maxRow (st.sheet ++ [srow]) = st.sheet.length + 1 := by
            rw [maxRow_eq_length _ (by simp)]
            simp
          have hlm : st.last_month =
              some (st.last_month.getD (monthKey jd)) := by
            cases hl : st.last_month with
            | none => rw [hl] at hcm; simp at hcm
            | some l => rfl
          have hsalen : (st.sheet ++ [srow]).length = st.sheet.length + 1 := by
            simp
          refine ⟨?_, ?_, ?_, ?_, ?_, ?_, ?_, ?_, ?_, ?_, ?_, ?_, ?_, ?_⟩
          · -- hlen
            dsimp only
            rw [htlen]
            omega
          · -- hheader
            dsimp only
            rw [hthead, List.getElem?_append_left (by omega)]
            exact hInv.hheader
          · -- hfr2
            dsimp only
            omega
          · -- hfrlen
            dsimp only
            rw [htlen, hmr2, hsalen]
            omega
          · -- hnone
            dsimp only
            intro h
            simp at h
          · -- hslnil
            dsimp only
            intro h
            simp at h
          · -- hsllast
            dsimp only
            intro eL heL
            rw [List.getLast?_concat] at heL
            have : eL = ⟨st.from_row, maxRow st.sheet,
                st.last_month.getD (monthKey jd)⟩ := by
              injection heL with h
              exact h.symm
            subst this
            dsimp only
            rw [hmr1, hmr2]
          · -- hsep
            dsimp only
            rw [List.pairwise_append]
            refine ⟨hInv.hsep, by simp, ?_⟩
            intro e he e' he'
            simp only [List.mem_singleton] at he'
            subst he'
            dsimp only
            have := (hInv.hentries e he).2.2.2.1
            omega
          · -- hentries
            dsimp only
            intro e he
            rcases List.mem_append.mp he with he | he
            · obtain ⟨h2, h3, h4, h5, h6⟩ := hInv.hentries e he
              refine ⟨h2, h3, by rw [htlen, hsalen]; omega,
                by rw [hmr2]; omega, ?_⟩
              rw [htframe _ _ (by omega) (by omega) (by omega),
                getCell_append_left _ _ _ _ (by omega) (by omega)]
              exact h6
            · simp only [List.mem_singleton] at he
              subst he
              dsimp only
              rw [hmr1]
              refine ⟨hInv.hfr2, by have := hInv.hfrlen; omega,
                by rw [htlen, hsalen]; omega, by rw [hmr2], ?_⟩
              rw [htframe _ _ (by omega) (by omega) (by omega)]
              rw [getCell_append_new st.sheet srow _]
              exact hsrow10
          · -- hrlsorted
            dsimp only
            rw [List.pairwise_append]
            refine ⟨hInv.hrlsorted, by simp, ?_⟩
            intro p hp q hq
            simp only [List.mem_singleton] at hq
            subst hq
            have := (hInv.hrlbounds p hp).2
            dsimp only
            rw [hsalen]
            omega
          · -- hrlbounds
            dsimp only
            intro p hp
            rcases List.mem_append.mp hp with hp | hp
            · have := hInv.hrlbounds p hp
              rw [htlen, hsalen]
              omega
            · simp only [List.mem_singleton] at hp
              subst hp
              rw [htlen]
              dsimp only
              rw [hsalen]
              omega
          · -- hopen
            dsimp only
            intro p hp hge
            rw [hmr2] at hge
            rcases List.mem_append.mp hp with hp | hp
            · have := (hInv.hrlbounds p hp).2
              omega
            · simp only [List.mem_singleton] at hp
              subst hp
              rfl
          · -- hclosed
            dsimp only
            intro e he p hp h1 h2
            rcases List.mem_append.mp he with he | he <;>
              rcases List.mem_append.mp hp with hp | hp
            · exact hInv.hclosed e he p hp h1 h2
            · simp only [List.mem_singleton] at hp
              subst hp
              dsimp only at h1 h2
              rw [hsalen] at h1 h2
              have h5 := (hInv.hentries e he).2.2.2.1
              have h7 := hInv.hfrlen
              omega
            · simp only [List.mem_singleton] at he
              subst he
              dsimp only at h1 h2 ⊢
              have := hInv.hopen p hp h1
              rw [hlm] at this
              injection this with h
              exact h.symm
            · simp only [List.mem_singleton] at he hp
              subst he
              subst hp
              dsimp only at h1 h2
              rw [hsalen] at h2
              rw [hmr1] at h2
              omega
          · -- hdata
            dsimp only
            intro r h2r hrle hint
            rw [htlen, hsalen] at hrle
            rcases Nat.lt_or_ge st.sheet.length r with hgt | hle2
            · rcases Nat.lt_or_ge (st.sheet.length + 2) r with hgt2 | hle3
              · rw [htcol1 r (by rw [hsalen]; omega)] at hint
                simp at hint
              · rcases Nat.lt_or_ge (st.sheet.length + 1) r with hgt3 | hle4
                · refine ⟨monthKey jd, List.mem_append_right _ ?_⟩
                  have : r = (st.sheet ++ [srow]).length + 1 := by
                    rw [hsalen]
                    omega
                  rw [this]
                  simp
                · have hreq : r = st.sheet.length + 1 := by omega
                  subst hreq
                  rw [htframe _ _ (by omega) (by omega) (by omega),
                    getCell_append_new st.sheet srow 1, hsrow1] at hint
                  simp [isIntCell] at hint
            · rw [htframe r 1 (by omega) (by omega) (by omega),
                getCell_append_left _ _ _ _ (by omega) (by omega)] at hint
              obtain ⟨m, hm⟩ := hInv.hdata r h2r hle2 hint
              exact ⟨m, List.mem_append_left _ hm⟩
      · -- same month (or first order): no bucket close
        rw [if_neg hcm] at hstep
        dsimp only at hstep
        have hceq : monthKey jd = st.last_month.getD (monthKey jd) :=
          not_not.mp hcm
        cases hcr : create_order_row o with
        | none =>
          rw [show insertNewOrder st.sheet o = none from by
            unfold insertNewOrder; rw [hcr]] at hstep
          simp at hstep
        | some row =>
          obtain ⟨t, hins, htne, htlen, hthead, htframe, htcol1, htnew, htcp⟩ :=
            insertNewOrder_facts st.sheet o hsne row hcr
          rw [hins] at hstep
          dsimp only at hstep
          have hstB : st' = ⟨t, some (monthKey jd), st.from_row,
              st.new_count + 1, st.sumLog,
              st.rowLog ++ [(st.sheet.length + 1, monthKey jd)]⟩ := by
            injection hstep with h
            exact h.symm
          subst hstB
          refine ⟨?_, ?_, ?_, ?_, ?_, ?_, ?_, ?_, ?_, ?_, ?_, ?_, ?_, ?_⟩
          · dsimp only
            rw [htlen]
            omega
          · dsimp only
            rw [hthead]
            exact hInv.hheader
          · exact hInv.hfr2
          · dsimp only
            rw [htlen]
            have := hInv.hfrlen
            omega
          · dsimp only
            intro h
            simp at h
          · exact hInv.hslnil
          · exact hInv.hsllast
          · exact hInv.hsep
          · dsimp only
            intro e he
            obtain ⟨h2, h3, h4, h5, h6⟩ := hInv.hentries e he
            refine ⟨h2, h3, by rw [htlen]; omega, h5, ?_⟩
            rw [htframe _ _ (by omega) (by omega) (by omega)]
            exact h6
          · dsimp only
            rw [List.pairwise_append]
            refine ⟨hInv.hrlsorted, by simp, ?_⟩
            intro p hp q hq
            simp only [List.mem_singleton] at hq
            subst hq
            have := (hInv.hrlbounds p hp).2
            dsimp only
            omega
          · dsimp only
            intro p hp
            rcases List.mem_append.mp hp with hp | hp
            · have := hInv.hrlbounds p hp
              rw [htlen]
              omega
            · simp only [List.mem_singleton] at hp
              subst hp
              rw [htlen]
              dsimp only
              omega
          · dsimp only
            intro p hp hge
            rcases List.mem_append.mp hp with hp | hp
            · have hres := hInv.hopen p hp hge
              cases hl : st.last_month with
              | none =>
                rw [hl] at hres
                simp at hres
              | some l =>
                rw [hl] at hres hceq
                injection hres with h
                rw [hceq]
                dsimp only [Option.getD_some]
                rw [h]
            · simp only [List.mem_singleton] at hp
              subst hp
              rfl
          · dsimp only
            intro e he p hp h1 h2
            rcases List.mem_append.mp hp with hp | hp
            · exact hInv.hclosed e he p hp h1 h2
            · simp only [List.mem_singleton] at hp
              subst hp
              dsimp only at h1 h2
              have h5 := (hInv.hentries e he).2.2.2.1
              have h7 := hInv.hfrlen
              omega
          · dsimp only
            intro r h2r hrle hint
            rw [htlen] at hrle
            rcases Nat.lt_or_ge st.sheet.length r with hgt | hle2
            · rcases Nat.lt_or_ge (st.sheet.length + 1) r with hgt2 | hle3
              · rw [htcol1 r (by omega)] at hint
                simp at hint
              · have hreq : r = st.sheet.length + 1 := by omega
                subst hreq
                exact ⟨monthKey jd, List.mem_append_right _ (by simp)⟩
            · rw [htframe r 1 (by omega) (by omega) (by omega)] at hint
              obtain ⟨m, hm⟩ := hInv.hdata r h2r hle2 hint
              exact ⟨m, List.mem_append_left _ hm⟩

theorem freshInv_fold :
    ∀ (orders : List Order) (st st' : LoopState),
      FreshInv st → orders.foldlM (procOrder []) st = some st' →
      FreshInv st' := by
  intro orders
  induction orders with
  | nil =>
    intro st st' h hf
    simp only [List.foldlM_nil] at hf
    injection hf with h'
    rw [← h']
    exact h
  | cons o rest ih =>
    intro st st' h hf
    rw [List.foldlM_cons] at hf
    cases hstep : procOrder [] st o with
    | none =>
      rw [hstep] at hf
      simp at hf
    | some st1 =>
      rw [hstep] at hf
      simp only [Option.bind_eq_bind, Option.some_bind] at hf
      exact ih st1 st' (freshInv_step st o st1 h hstep) hf

theorem freshInv_base :
    FreshInv ⟨[headerRow], none, 2, 0, [], []⟩ := by
  refine ⟨?_, ?_, ?_, ?_, ?_, ?_, ?_, ?_, ?_, ?_, ?_, ?_, ?_, ?_⟩
  · simp
  · rfl
  · exact Nat.le_refl 2
  · simp
  · exact fun _ => ⟨rfl, rfl⟩
  · exact fun _ => rfl
  · intro eL h
    simp at h
  · simp
  · intro e he
    simp at he
  · simp
  · intro p hp
    simp at hp
  · intro p hp
    simp at hp
  · intro e he
    simp at he
  · intro r h2 hle
    simp at hle
    omega

/-- C5 amended, part of the corrected claim: in a run that starts from
an absent ledger file, every generated SubtotalRow's summed row range
contains only data rows inserted with that SubtotalRow's bucket month,
and the ranges of distinct SubtotalRows are pairwise disjoint. -/
theorem bucket_integrity_fresh_run :
    ∀ (orders : List Order) (res : RunResult),
      write_to_excel_run none orders = some res →
      sumLogSeparated res.sumLog ∧ sumLogHomogeneous res := by
  intro orders res hrun
  unfold write_to_excel_run at hrun
  rw [show initSheet none = [headerRow] from rfl] at hrun
  dsimp only at hrun
  rw [show build_existing_ids [headerRow] = [] from rfl] at hrun
  cases hf : orders.foldlM (procOrder []) ⟨[headerRow], none, 2, 0, [], []⟩ with
  | none =>
    rw [hf] at hrun
    simp at hrun
  | some stL =>
    rw [hf] at hrun
    dsimp only at hrun
    have hInv : FreshInv stL := freshInv_fold orders _ stL freshInv_base hf
    cases hlast : (find_sum_rows stL.sheet).getLast? with
    | none =>
      rw [hlast] at hrun
      simp at hrun
    | some L =>
      rw [hlast] at hrun
      dsimp only at hrun
      have hsne : stL.sheet ≠ [] := by
        intro hh
        have := hInv.hlen
        rw [hh] at this
        simp at this
      have hmrL : maxRow stL.sheet = stL.sheet.length := maxRow_eq_length _ hsne
      obtain ⟨srow, hadd, hsrow1, hsrow10⟩ :=
        add_sum_row_shape stL.sheet (L + 1) hsne hInv.hheader
      rw [hadd] at hrun
      dsimp only at hrun
      have hres : res = ⟨append_totals (stL.sheet ++ [srow])
          (find_sum_rows (stL.sheet ++ [srow])),
          stL.sumLog ++ [⟨L + 1, maxRow stL.sheet, stL.last_month.getD ""⟩],
          stL.rowLog⟩ := by
        injection hrun with h
        exact h.symm
      subst hres
      have hLmem : L ∈ find_sum_rows stL.sheet :=
        List.mem_of_mem_getLast? hlast
      have hLb := (mem_find_sum_rows _ _).mp hLmem
      have hfrL : stL.from_row ≤ L + 1 := by
        cases hgl : stL.sumLog.getLast? with
        | none =>
          have hnil : stL.sumLog = [] := by
            cases hsl : stL.sumLog with
            | nil => rfl
            | cons a as =>
              rw [hsl] at hgl
              simp at hgl
          rw [hInv.hslnil hnil]
          omega
        | some eL =>
          have hfr := hInv.hsllast eL hgl
          have heL : eL ∈ stL.sumLog := List.mem_of_mem_getLast? hgl
          obtain ⟨e2, e3, e4, e5, e6⟩ := hInv.hentries eL heL
          have hmem2 : eL.lastRow + 1 ∈ find_sum_rows stL.sheet :=
            (mem_find_sum_rows _ _).mpr ⟨by omega, by rw [hmrL]; omega, e6⟩
          have := le_getLast_of_sorted _ (find_sum_rows_sorted _) _ hmem2 L hlast
          omega
      have hframe : ∀ r c, 1 ≤ r → r ≤ stL.sheet.length →
          getCell (append_totals (stL.sheet ++ [srow])
            (find_sum_rows (stL.sheet ++ [srow]))) r c =
            getCell stL.sheet r c := by
        intro r c hr hle
        unfold append_totals
        rw [getCell_appendRow_le _ _ _ _ (by simp) hr (by simp; omega),
          getCell_append_left _ _ _ _ hr hle]
      constructor
      · unfold sumLogSeparated
        dsimp only
        rw [List.pairwise_append]
        refine ⟨hInv.hsep, by simp, ?_⟩
        intro e he e' he'
        simp only [List.mem_singleton] at he'
        subst he'
        dsimp only
        have h5 := (hInv.hentries e he).2.2.2.1
        omega
      · unfold sumLogHomogeneous
        dsimp only
        intro e he r h1 h2 hint
        rcases List.mem_append.mp he with he | he
        · obtain ⟨e2, e3, e4, e5, e6⟩ := hInv.hentries e he
          rw [hframe r 1 (by omega) (by omega)] at hint
          obtain ⟨m, hm⟩ := hInv.hdata r (by omega) (by omega) hint
          have hmm := hInv.hclosed e he (r, m) hm h1 h2
          rw [rowLogMonth_of_mem _ hInv.hrlsorted r m hm]
          exact congrArg some hmm
        · simp only [List.mem_singleton] at he
          subst he
          dsimp only at h1 h2 ⊢
          rw [hmrL] at h2
          rw [hframe r 1 (by omega) (by omega)] at hint
          obtain ⟨m, hm⟩ := hInv.hdata r (by omega) h2 hint
          have hsome := hInv.hopen (r, m) hm (by omega)
          rw [rowLogMonth_of_mem _ hInv.hrlsorted r m hm, hsome]
          rfl

/-- Witness for C5 amended at the concrete two-month fresh run. -/
theorem bucket_integrity_fresh_run_witness :
    sumLogSeparated demoRun1.sumLog ∧ sumLogHomogeneous demoRun1 :=
  bucket_integrity_fresh_run demoBatch demoRun1 (by rfl)

/-- C5 counterexample: the claim asserts bucket integrity "including in
a later run that inserts rows for a new month into a file that already
holds earlier buckets".  In the second demo run, the month-boundary
SubtotalRow is generated at row 7 with the range 2..6 (its formula is
`=SUM(L2:L6)`, because `from_row` is initialised to 2 regardless of the
pre-existing buckets): the range contains data row 2, whose paid month
`1403-01` differs from the bucket month `1403-02` being closed, and rows
2..3 simultaneously lie in the earlier SubtotalRow's range (row 4,
`=SUM(L2:L3)`) — so a data row lies in two SubtotalRows' ranges and the
range is not month-homogeneous. -/
theorem bucket_integrity_violated_across_runs :
    write_to_excel_run none demoBatch = some demoRun1 ∧
    write_to_excel_run (some demoRun1.sheet) demoBatch2 = some demoRun2 ∧
    demoRun1.sumLog = [⟨2, 3, "1403-01"⟩, ⟨5, 6, "1403-02"⟩] ∧
    demoRun1.rowLog = [(2, "1403-01"), (5, "1403-02")] ∧
    demoRun2.sumLog = [⟨2, 6, "1403-02"⟩, ⟨8, 8, "1403-03"⟩] ∧
    getCell demoRun2.sheet 7 (colIdx "total" + 1) =
      CellVal.str "=SUM(L2:L6)" ∧
    getCell demoRun2.sheet 7 (colIdx "address" + 1) =
      CellVal.str TEXT_sum_month ∧
    getCell demoRun2.sheet 4 (colIdx "total" + 1) =
      CellVal.str "=SUM(L2:L3)" ∧
    getCell demoRun2.sheet 4 (colIdx "address" + 1) =
      CellVal.str TEXT_sum_month ∧
    isIntCell (getCell demoRun2.sheet 2 1) = true ∧
    rowMonthCell demoRun2.sheet 2 = some "1403-01" ∧
    ("1403-01" : String) ≠ "1403-02" := by
  exact ⟨rfl, rfl, rfl, rfl, rfl, rfl, rfl, rfl, rfl, rfl, rfl, by decide⟩

/-! ### The `existing_order_ids` dict: lookup characterisation -/

theorem find?_insert_map_hit (k k' : CellVal) (v : Nat)
    (d : List (CellVal × Nat)) (hk : k' = k)
    (hex : d.any (fun kv => kv.1 == k) = true) :
    (d.map (fun kv => if kv.1 == k then (k, v) else kv)).find?
      (fun kv => kv.1 == k') = some (k, v) := by
  subst hk
  induction d with
  | nil => simp at hex
  | cons p rest ih =>
    by_cases hpk : p.1 = k'
    · simp only [List.map_cons]
      rw [if_pos (beq_iff_eq.mpr hpk)]
      rw [List.find?_cons_of_pos _ (by simp)]
    · simp only [List.any_cons] at hex
      rw [show (p.1 == k') = false from by simpa using hpk,
        Bool.false_or] at hex
      simp only [List.map_cons]
      rw [if_neg (by simp [hpk])]
      rw [List.find?_cons_of_neg _ (by simp [hpk])]
      exact ih hex

theorem find?_insert_map_miss (k k' : CellVal) (v : Nat)
    (d : List (CellVal × Nat)) (hk : ¬ k' = k) :
    (d.map (fun kv => if kv.1 == k then (k, v) else kv)).find?
      (fun kv => kv.1 == k') = d.find? (fun kv => kv.1 == k') := by
  induction d with
  | nil => rfl
  | cons p rest ih =>
    by_cases hpk : p.1 = k
    · simp only [List.map_cons]
      rw [if_pos (beq_iff_eq.mpr hpk)]
      rw [List.find?_cons_of_neg _ (by simp; exact fun hh => hk hh.symm),
        List.find?_cons_of_neg _ (by simp [hpk]; exact fun hh => hk hh.symm)]
      exact ih
    · simp only [List.map_cons]
      rw [if_neg (by simp [hpk])]
      by_cases hpk' : p.1 = k'
      · rw [List.find?_cons_of_pos _ (by simp [hpk']),
          List.find?_cons_of_pos _ (by simp [hpk'])]
      · rw [List.find?_cons_of_neg _ (by simp [hpk']),
          List.find?_cons_of_neg _ (by simp [hpk'])]
        exact ih

theorem find?_append_single (k' : CellVal) (x : CellVal × Nat)
    (d : List (CellVal × Nat)) :
    (d ++ [x]).find? (fun kv => kv.1 == k') =
      match d.find? (fun kv => kv.1 == k') with
      | some a => some a
      | none => if x.1 == k' then some x else none := by
  induction d with
  | nil =>
    by_cases hx : x.1 = k'
    · rw [List.nil_append, List.find?_cons_of_pos _ (by simp [hx])]
      simp [hx]
    · rw [List.nil_append, List.find?_cons_of_neg _ (by simp [hx])]
      simp [hx]
  | cons p rest ih =>
    by_cases hp : p.1 = k'
    · rw [List.cons_append, List.find?_cons_of_pos _ (by simp [hp]),
        List.find?_cons_of_pos _ (by simp [hp])]
    · rw [List.cons_append, List.find?_cons_of_neg _ (by simp [hp]),
        List.find?_cons_of_neg _ (by simp [hp])]
      exact ih

theorem dictLookup_insert (d : List (CellVal × Nat)) (k : CellVal) (v : Nat)
    (k' : CellVal) :
    dictLookup (dictInsert d k v) k' =
      if k' = k then some v else dictLookup d k' := by
  unfold dictInsert dictLookup
  by_cases hex : d.any (fun kv => kv.1 == k) = true
  · rw [if_pos hex]
    by_cases hk : k' = k
    · rw [find?_insert_map_hit k k' v d hk hex, if_pos hk]
      rfl
    · rw [find?_insert_map_miss k k' v d hk, if_neg hk]
  · rw [if_neg hex, find?_append_single]
    by_cases hk : k' = k
    · rw [if_pos hk]
      subst hk
      have hnone : d.find? (fun kv => kv.1 == k') = none := by
        rw [List.find?_eq_none]
        intro x hx
        simp only [Bool.not_eq_true]
        by_contra hc
        simp only [Bool.not_eq_false] at hc
        exact hex (List.any_eq_true.mpr ⟨x, hx, hc⟩)
      rw [hnone]
      simp
    · rw [if_neg hk]
      cases hfind : d.find? (fun kv => kv.1 == k') with
      | some a => rfl
      | none =>
        rw [if_neg (by simp; exact fun hh => hk hh.symm)]

theorem dictLookup_filter_ne_empty (d : List (CellVal × Nat)) (k : CellVal)
    (hk : k ≠ CellVal.empty) :
    dictLookup (d.filter (fun kv => kv.1 ≠ CellVal.empty)) k =
      dictLookup d k := by
  unfold dictLookup
  congr 1
  induction d with
  | nil => rfl
  | cons p rest ih =>
    by_cases hp : p.1 = CellVal.empty
    · rw [List.filter_cons_of_neg (by simp [hp])]
      rw [List.find?_cons_of_neg _ (by simp [hp]; exact fun hh => hk hh.symm)]
      exact ih
    · rw [List.filter_cons_of_pos (by simp [hp])]
      by_cases hpk : p.1 = k
      · rw [List.find?_cons_of_pos _ (by simp [hpk]),
          List.find?_cons_of_pos _ (by simp [hpk])]
      · rw [List.find?_cons_of_neg _ (by simp [hpk]),
          List.find?_cons_of_neg _ (by simp [hpk])]
        exact ih

theorem dictLookup_rangeFold (s : Sheet) (cc : Nat) (k : CellVal) (n : Nat) :
    dictLookup ((List.range' 2 n).foldl
        (fun d r => dictInsert d (getCell s r cc) r) []) k =
      (List.range' 2 n).reverse.find? (fun r => getCell s r cc == k) := by
  induction n with
  | zero => rfl
  | succ m ih =>
    rw [List.range'_1_concat, List.foldl_append, List.foldl_cons,
      List.foldl_nil, dictLookup_insert, List.reverse_append,
      List.reverse_singleton, List.singleton_append]
    by_cases hk : k = getCell s (2 + m) cc
    · rw [if_pos hk]
      refine (List.find?_cons_of_pos _ ?_).symm
      exact beq_iff_eq.mpr hk.symm
    · rw [if_neg hk,
        List.find?_cons_of_neg _ (by simp; exact fun hh => hk hh.symm)]
      exact ih

theorem find?_rev_range'_some (f : Nat → Bool) :
    ∀ (n r : Nat), (List.range' 2 n).reverse.find? f = some r →
      2 ≤ r ∧ r < 2 + n ∧ f r = true ∧
        ∀ r', r < r' → r' < 2 + n → f r' = false := by
  intro n
  induction n with
  | zero =>
    intro r h
    simp at h
  | succ m ih =>
    intro r h
    rw [List.range'_1_concat, List.reverse_append, List.reverse_singleton,
      List.singleton_append] at h
    by_cases hf : f (2 + m) = true
    · rw [List.find?_cons_of_pos _ hf] at h
      injection h with h
      subst h
      exact ⟨by omega, by omega, hf, fun r' h1 h2 => by omega⟩
    · rw [List.find?_cons_of_neg _ hf] at h
      obtain ⟨h1, h2, h3, h4⟩ := ih r h
      refine ⟨h1, by omega, h3, fun r' hr1 hr2 => ?_⟩
      rcases Nat.lt_or_ge r' (2 + m) with hlt | hge
      · exact h4 r' hr1 hlt
      · have heq : r' = 2 + m := by omega
        subst heq
        simpa using hf

theorem find?_rev_range'_of (f : Nat → Bool) :
    ∀ (n r : Nat), 2 ≤ r → r < 2 + n → f r = true →
      (∀ r', r < r' → r' < 2 + n → f r' = false) →
      (List.range' 2 n).reverse.find? f = some r := by
  intro n
  induction n with
  | zero =>
    intro r h1 h2 h3 h4
    omega
  | succ m ih =>
    intro r h1 h2 h3 h4
    rw [List.range'_1_concat, List.reverse_append, List.reverse_singleton,
      List.singleton_append]
    rcases Nat.lt_or_ge r (2 + m) with hlt | hge
    · rw [List.find?_cons_of_neg _
        (by simp [h4 (2 + m) (by omega) (by omega)])]
      exact ih r h1 hlt h3 (fun r' a b => h4 r' a (by omega))
    · have heq : r = 2 + m := by omega
      subst heq
      exact List.find?_cons_of_pos _ h3

theorem colIdx_order_id : colIdx "order_id" = 0 := by rfl

theorem colIdx_address : colIdx "address" = 9 := by rfl

theorem colIdx_postcode : colIdx "postcode" = 10 := by rfl

theorem build_existing_ids_nil : build_existing_ids [] = [] := by rfl

theorem build_existing_ids_lookup (s : Sheet) (k : CellVal) (hs : s ≠ [])
    (hk : k ≠ CellVal.empty) :
    dictLookup (build_existing_ids s) k =
      (List.range' 2 (s.length - 1)).reverse.find?
        (fun r => getCell s r 1 == k) := by
  unfold build_existing_ids
  rw [dictLookup_filter_ne_empty _ _ hk, maxRow_eq_length s hs,
    show colIdx "order_id" + 1 = 1 from by rw [colIdx_order_id]]
  exact dictLookup_rangeFold s 1 k (s.length - 1)

theorem build_lookup_some (s : Sheet) (k : CellVal) (r : Nat) (hs : s ≠ [])
    (hk : k ≠ CellVal.empty)
    (h : dictLookup (build_existing_ids s) k = some r) :
    2 ≤ r ∧ r ≤ s.length ∧ getCell s r 1 = k ∧
      ∀ r', r < r' → r' ≤ s.length → getCell s r' 1 ≠ k := by
  rw [build_existing_ids_lookup s k hs hk] at h
  have hlen : 1 ≤ s.length := List.length_pos.mpr hs
  obtain ⟨h1, h2, h3, h4⟩ := find?_rev_range'_some _ (s.length - 1) r h
  refine ⟨h1, by omega, beq_iff_eq.mp h3, fun r' hr1 hr2 hcell => ?_⟩
  have := h4 r' hr1 (by omega)
  rw [beq_iff_eq.mpr hcell] at this
  simp at this

theorem build_lookup_of (s : Sheet) (k : CellVal) (r : Nat) (hs : s ≠ [])
    (hk : k ≠ CellVal.empty) (h1 : 2 ≤ r) (h2 : r ≤ s.length)
    (h3 : getCell s r 1 = k)
    (h4 : ∀ r', r < r' → getCell s r' 1 ≠ k) :
    dictLookup (build_existing_ids s) k = some r := by
  rw [build_existing_ids_lookup s k hs hk]
  have hlen : 1 ≤ s.length := List.length_pos.mpr hs
  refine find?_rev_range'_of _ (s.length - 1) r h1 (by omega)
    (beq_iff_eq.mpr h3) (fun r' hr1 hr2 => ?_)
  exact beq_eq_false_iff_ne.mpr (h4 r' hr1)

/-! ### Status round trip on the upsert's status cell -/

theorem STATUS_get_of_mem :
    ∀ p ∈ ENGLISH_STATUS, STATUS_get p.1 = some p.2 := by decide

theorem get_key_roundtrip (v : CellVal) (k : String)
    (h : get_key_by_value ENGLISH_STATUS v = some k) :
    cellOfOpt (STATUS_get k) = v := by
  unfold get_key_by_value at h
  cases hf : ENGLISH_STATUS.find? (fun p => CellVal.str p.2 == v) with
  | none =>
    rw [hf] at h
    simp at h
  | some p =>
    rw [hf] at h
    injection h with h
    have hmem := List.mem_of_find?_eq_some hf
    have hpred := List.find?_some hf
    have hv : CellVal.str p.2 = v := beq_iff_eq.mp hpred
    rw [← h, STATUS_get_of_mem p hmem]
    exact hv

/-! ### The update branch forces the four mutable cells -/

theorem targetCell_status (o : Order) : targetCell o 2 = statusCellOf o := rfl

theorem targetCell_datei (o : Order) : targetCell o 21 = dateiCellOf o := rfl

theorem targetCell_track (o : Order) : targetCell o 22 = trackCellOf o := rfl

theorem targetCell_deliver (o : Order) :
    targetCell o 25 = deliverCellOf o := rfl

theorem updateCellIfChanged_length (s : Sheet) (r c : Nat) (cur : CellVal)
    (h2 : r ≤ s.length) :
    (updateCellIfChanged s r c cur).length = s.length := by
  unfold updateCellIfChanged
  split
  · rw [setCell_length]
    omega
  · rfl

theorem getCell_updateCellIfChanged_self (s : Sheet) (r c : Nat)
    (cur : CellVal) (hr : 1 ≤ r) (hc : 1 ≤ c) :
    getCell (updateCellIfChanged s r c cur) r c = cur := by
  unfold updateCellIfChanged
  split
  · exact getCell_setCell_self s r c cur hr hc
  · rename_i hcond
    rw [not_not] at hcond
    exact hcond.symm

theorem head?_updateCellIfChanged (s : Sheet) (r c : Nat) (cur : CellVal)
    (hr : 2 ≤ r) (hs : s ≠ []) :
    (updateCellIfChanged s r c cur)[0]? = s[0]? := by
  unfold updateCellIfChanged
  split
  · exact head?_setCell s r c cur hr hs
  · rfl

theorem updateExisting_facts (s : Sheet) (rd : Nat) (o : Order)
    (h1 : 2 ≤ rd) (h2 : rd ≤ s.length) :
    (updateExisting s rd o).length = s.length ∧
    (updateExisting s rd o)[0]? = s[0]? ∧
    getCell (updateExisting s rd o) rd 2 = targetCell o 2 ∧
    getCell (updateExisting s rd o) rd 21 = targetCell o 21 ∧
    getCell (updateExisting s rd o) rd 22 = targetCell o 22 ∧
    getCell (updateExisting s rd o) rd 25 = targetCell o 25 := by
  have hs : s ≠ [] := by
    intro h
    rw [h] at h2
    simp at h2
    omega
  unfold updateExisting
  dsimp only
  set t1 := (if get_key_by_value ENGLISH_STATUS
        (getCell s rd (colIdx "status" + 1)) ≠ some o.status then
      setCell s rd (colIdx "status" + 1) (statusCellOf o) else s) with ht1
  have f1len : t1.length = s.length := by
    rw [ht1]
    split
    · rw [setCell_length]
      omega
    · rfl
  have f1ne : t1 ≠ [] := by
    apply List.ne_nil_of_length_pos
    rw [f1len]
    omega
  have f1head : t1[0]? = s[0]? := by
    rw [ht1]
    split
    · exact head?_setCell _ _ _ _ (by omega) hs
    · rfl
  have f1status : getCell t1 rd (colIdx "status" + 1) = statusCellOf o := by
    rw [ht1]
    split
    · exact getCell_setCell_self _ _ _ _ (by omega) (by omega)
    · rename_i hcond
      rw [not_not] at hcond
      exact (get_key_roundtrip _ _ hcond).symm
  set t2 := updateCellIfChanged t1 rd (colIdx "datei" + 1) (dateiCellOf o)
    with ht2
  have f2len : t2.length = s.length := by
    rw [ht2, updateCellIfChanged_length _ _ _ _ (by rw [f1len]; exact h2)]
    exact f1len
  have f2ne : t2 ≠ [] := by
    apply List.ne_nil_of_length_pos
    rw [f2len]
    omega
  have f2head : t2[0]? = s[0]? := by
    rw [ht2, head?_updateCellIfChanged _ _ _ _ h1 f1ne]
    exact f1head
  have f2status : getCell t2 rd (colIdx "status" + 1) = statusCellOf o := by
    rw [ht2, getCell_updateCellIfChanged_ne _ _ _ _ _ _ (by omega)
      (by rw [colIdx_datei]; omega) (by omega)
      (by rw [colIdx_status]; omega) (Or.inr (by decide))]
    exact f1status
  have f2datei : getCell t2 rd (colIdx "datei" + 1) = dateiCellOf o := by
    rw [ht2]
    exact getCell_updateCellIfChanged_self _ _ _ _ (by omega)
      (by rw [colIdx_datei]; omega)
  set t3 := updateCellIfChanged t2 rd (colIdx "tracking_code" + 1)
    (trackCellOf o) with ht3
  have f3len : t3.length = s.length := by
    rw [ht3, updateCellIfChanged_length _ _ _ _ (by rw [f2len]; exact h2)]
    exact f2len
  have f3ne : t3 ≠ [] := by
    apply List.ne_nil_of_length_pos
    rw [f3len]
    omega
  have f3head : t3[0]? = s[0]? := by
    rw [ht3, head?_updateCellIfChanged _ _ _ _ h1 f2ne]
    exact f2head
  have f3status : getCell t3 rd (colIdx "status" + 1) = statusCellOf o := by
    rw [ht3, getCell_updateCellIfChanged_ne _ _ _ _ _ _ (by omega)
      (by rw [colIdx_tracking]; omega) (by omega)
      (by rw [colIdx_status]; omega) (Or.inr (by decide))]
    exact f2status
  have f3datei : getCell t3 rd (colIdx "datei" + 1) = dateiCellOf o := by
    rw [ht3, getCell_updateCellIfChanged_ne _ _ _ _ _ _ (by omega)
      (by rw [colIdx_tracking]; omega) (by omega)
      (by rw [colIdx_datei]; omega) (Or.inr (by decide))]
    exact f2datei
  have f3track : getCell t3 rd (colIdx "tracking_code" + 1) =
      trackCellOf o := by
    rw [ht3]
    exact getCell_updateCellIfChanged_self _ _ _ _ (by omega)
      (by rw [colIdx_tracking]; omega)
  refine ⟨?_, ?_, ?_, ?_, ?_, ?_⟩
  · rw [updateCellIfChanged_length _ _ _ _ (by rw [f3len]; exact h2)]
    exact f3len
  · rw [head?_updateCellIfChanged _ _ _ _ h1 f3ne]
    exact f3head
  · rw [getCell_updateCellIfChanged_ne _ _ _ _ _ _ (by omega)
      (by rw [colIdx_delivery]; omega) (by omega) (by omega)
      (Or.inr (by decide))]
    exact f3status
  · rw [getCell_updateCellIfChanged_ne _ _ _ _ _ _ (by omega)
      (by rw [colIdx_delivery]; omega) (by omega) (by omega)
      (Or.inr (by decide))]
    exact f3datei
  · rw [getCell_updateCellIfChanged_ne _ _ _ _ _ _ (by omega)
      (by rw [colIdx_delivery]; omega) (by omega) (by omega)
      (Or.inr (by decide))]
    exact f3track
  · rw [show (25 : Nat) = colIdx "delivery_date" + 1 from by
      rw [colIdx_delivery]]
    exact getCell_updateCellIfChanged_self _ _ _ _ (by omega)
      (by rw [colIdx_delivery]; omega)

/-! ### Cells of a freshly projected order row -/

theorem create_order_row_cells (o : Order) (row : Row)
    (h : create_order_row o = some row) :
    cellAt row 1 = CellVal.int o.id ∧
    cellAt row 2 = statusCellOf o ∧
    cellAt row 21 = dateiCellOf o ∧
    cellAt row 22 = trackCellOf o ∧
    cellAt row 25 = deliverCellOf o := by
  unfold create_order_row at h
  dsimp only at h
  split at h
  · injection h with h
    subst h
    exact ⟨rfl, rfl, rfl, rfl, rfl⟩
  · exact Option.noConfusion h

theorem insertNewOrder_nil_eq (o : Order) :
    insertNewOrder [] o = insertNewOrder [[]] o := by
  unfold insertNewOrder
  cases create_order_row o <;> rfl

/-! ### Deterministic shape of `add_sum_row` -/

theorem foldl_sumcols_eq (names : List String) :
    ∀ (s : Sheet) (x : Row) (fr last : Nat),
      names.foldl (fun sh name =>
        if name == "address" || name == "postcode" then sh
        else setCell sh (s.length + 1) (colIdx name + 1)
          (.str (sumFormula (colIdx name + 1) fr last))) (s ++ [x]) =
      s ++ [sumRowFold names fr last x] := by
  induction names with
  | nil => intro s x fr last; rfl
  | cons name rest ih =>
    intro s x fr last
    rw [List.foldl_cons]
    by_cases hskip : (name == "address" || name == "postcode") = true
    · rw [if_pos hskip]
      rw [show sumRowFold (name :: rest) fr last x =
          sumRowFold rest fr last x from by
        unfold sumRowFold
        rw [List.foldl_cons, if_pos hskip]]
      exact ih s x fr last
    · rw [if_neg hskip, setCell_append_last, Nat.add_sub_cancel]
      rw [show sumRowFold (name :: rest) fr last x =
          sumRowFold rest fr last ((padRow x (colIdx name + 1)).set
            (colIdx name) (.str (sumFormula (colIdx name + 1) fr last)))
          from by
        unfold sumRowFold
        rw [List.foldl_cons, if_neg hskip]]
      exact ih s _ fr last

theorem sumRowFold_cells (names : List String)
    (hn : ∀ name ∈ names, (name == "address" || name == "postcode") = true ∨
      11 ≤ colIdx name + 1) :
    ∀ (x : Row) (fr last c : Nat), c ≤ 10 →
      cellAt (sumRowFold names fr last x) c = cellAt x c := by
  induction names with
  | nil => intro x fr last c hc; rfl
  | cons name rest ih =>
    intro x fr last c hc
    by_cases hskip : (name == "address" || name == "postcode") = true
    · rw [show sumRowFold (name :: rest) fr last x =
          sumRowFold rest fr last x from by
        unfold sumRowFold
        rw [List.foldl_cons, if_pos hskip]]
      exact ih (fun n hn' => hn n (List.mem_cons_of_mem _ hn')) x fr last c hc
    · have hcol : 11 ≤ colIdx name + 1 := by
        rcases hn name (List.mem_cons_self _ _) with h | h
        · exact absurd h hskip
        · exact h
      rw [show sumRowFold (name :: rest) fr last x =
          sumRowFold rest fr last ((padRow x (colIdx name + 1)).set
            (colIdx name) (.str (sumFormula (colIdx name + 1) fr last)))
          from by
        unfold sumRowFold
        rw [List.foldl_cons, if_neg hskip]]
      rw [ih (fun n hn' => hn n (List.mem_cons_of_mem _ hn')) _ fr last c hc,
        cellAt_set_ne _ _ _ _ (by omega), cellAt_pad]

theorem sumRowOf_cells (cnt fr last : Nat) :
    cellAt (sumRowOf cnt fr last) 1 = CellVal.empty ∧
    cellAt (sumRowOf cnt fr last) (colIdx "address" + 1) =
      CellVal.str TEXT_sum_month := by
  unfold sumRowOf
  constructor
  · rw [sumRowFold_cells COL_LIST (by decide) _ fr last 1 (by omega),
      cellAt_set_ne _ _ _ _ (by decide), cellAt_pad,
      cellAt_set_ne _ _ _ _ (by decide), cellAt_pad]
    rfl
  · rw [sumRowFold_cells COL_LIST (by decide) _ fr last _ (by decide),
      cellAt_set_ne _ _ _ _ (by decide), cellAt_pad]
    unfold cellAt
    rw [Nat.add_sub_cancel, List.getElem?_set_self (by decide)]
    rfl

theorem count_integer_rows_append (s : Sheet) (x : Row) (nm : String)
    (fr : Nat) (hs : s ≠ []) (hfr : 1 ≤ fr) :
    count_integer_rows (s ++ [x]) nm fr s.length =
      count_integer_rows s nm fr s.length := by
  unfold count_integer_rows
  rw [List.getElem?_append_left (List.length_pos.mpr hs)]
  dsimp only
  cases hidx : ((s[0]?).getD []).findIdx? (fun v => v == CellVal.str nm) with
  | none => rfl
  | some idx =>
    dsimp only
    congr 2
    apply List.filter_congr
    intro r hr
    have hrr := List.mem_range'_1.mp hr
    rw [getCell_append_left s [x] r (idx + 1) (by omega) (by omega)]

theorem count_integer_rows_congr (A B : Sheet) (nm : String) (a b : Nat)
    (hhead : B[0]? = A[0]?) (ha : 1 ≤ a)
    (hc : ∀ r c, 1 ≤ r → r ≤ b → 1 ≤ c → getCell B r c = getCell A r c) :
    count_integer_rows B nm a b = count_integer_rows A nm a b := by
  unfold count_integer_rows
  rw [hhead]
  dsimp only
  cases hidx : ((A[0]?).getD []).findIdx? (fun v => v == CellVal.str nm) with
  | none => rfl
  | some idx =>
    dsimp only
    congr 2
    apply List.filter_congr
    intro r hr
    have hrr := List.mem_range'_1.mp hr
    rw [hc r (idx + 1) (by omega) (by omega) (by omega)]

theorem add_sum_row_run (s : Sheet) (fr : Nat) (hs : s ≠ []) (hfr : 1 ≤ fr) :
    add_sum_row s fr (maxRow s) COL_LIST =
      match count_integer_rows s (headerLabel "order_id") fr s.length with
      | none => none
      | some cnt => some (s ++ [sumRowOf cnt fr s.length], s.length + 1) := by
  have hml : maxRow s = s.length := maxRow_eq_length s hs
  unfold add_sum_row
  rw [hml]
  dsimp only
  rw [insertEmptyRow_at_end, setCell_append_last, Nat.add_sub_cancel]
  rw [count_integer_rows_append s _ _ fr hs hfr]
  cases hcnt : count_integer_rows s (headerLabel "order_id") fr s.length with
  | none => rfl
  | some cnt =>
    dsimp only
    rw [setCell_append_last, Nat.add_sub_cancel, foldl_sumcols_eq]
    rfl

theorem add_sum_row_nil (fr : Nat) :
    add_sum_row [] fr (maxRow []) COL_LIST = none := by rfl

/-! ### Last occurrence of an identifier in a batch -/

theorem occLast_append_single (P : List Order) (o : Order) (i : Int) :
    occLast (P ++ [o]) i = if o.id = i then some o else occLast P i := by
  unfold occLast
  rw [List.reverse_append, List.reverse_singleton, List.singleton_append]
  by_cases h : o.id = i
  · rw [if_pos h]
    exact List.find?_cons_of_pos _ (beq_iff_eq.mpr h)
  · rw [if_neg h, List.find?_cons_of_neg _ (by simp [h])]

theorem occLast_id (P : List Order) (i : Int) (o : Order)
    (h : occLast P i = some o) : o.id = i := by
  unfold occLast at h
  have hp := List.find?_some h
  exact beq_iff_eq.mp hp

theorem occLast_of_mem (P : List Order) (o : Order) (h : o ∈ P) :
    ∃ o', occLast P o.id = some o' := by
  unfold occLast
  cases hf : P.reverse.find? (fun o' => o'.id == o.id) with
  | some o' => exact ⟨o', rfl⟩
  | none =>
    rw [List.find?_eq_none] at hf
    exact absurd (by simp) (hf o (List.mem_reverse.mpr h))

/-- Every order of a successfully folded batch passes the paid-date gate
at the top of the loop body. -/
theorem foldlM_dates_ok (ids : List (CellVal × Nat)) :
    ∀ (orders : List Order) (st st' : LoopState),
      orders.foldlM (procOrder ids) st = some st' →
      ∀ o ∈ orders, ∃ dp jd rest, o.date_paid = some dp ∧
        convert_to_jalali dp = some (jd, rest) := by
  intro orders
  induction orders with
  | nil =>
    intro st st' h o ho
    simp at ho
  | cons o1 rest ih =>
    intro st st' h o ho
    rw [List.foldlM_cons] at h
    cases hstep : procOrder ids st o1 with
    | none =>
      rw [hstep] at h
      simp at h
    | some st1 =>
      rw [hstep] at h
      simp only [Option.bind_eq_bind, Option.some_bind] at h
      rcases List.mem_cons.mp ho with rfl | ho'
      · unfold procOrder at hstep
        cases hdp : o.date_paid with
        | none =>
          rw [hdp] at hstep
          simp at hstep
        | some dp =>
          rw [hdp] at hstep
          dsimp only at hstep
          cases hcv : convert_to_jalali dp with
          | none =>
            rw [hcv] at hstep
            simp at hstep
          | some jdp =>
            obtain ⟨jd, rs⟩ := jdp
            exact ⟨dp, jd, rs, rfl, hcv⟩
      · exact ih st1 st' h o ho'

/-! ### Congruence of the epilogue under cell-for-cell equality -/

theorem getCell_append_congr (A B t : Sheet) (hlen : B.length = A.length)
    (hc : ∀ r c, 1 ≤ r → 1 ≤ c → getCell B r c = getCell A r c)
    (r c : Nat) (hr : 1 ≤ r) (hcc : 1 ≤ c) :
    getCell (B ++ t) r c = getCell (A ++ t) r c := by
  rcases le_or_lt r A.length with hle | hgt
  · rw [getCell_append_left A t r c hr hle,
      getCell_append_left B t r c hr (by omega), hc r c hr hcc]
  · unfold getCell rowAt
    rw [List.getElem?_append_right (by omega),
      List.getElem?_append_right (by omega), hlen]

theorem find_sum_rows_congr (A B : Sheet) (hlen : B.length = A.length)
    (hc : ∀ r c, 1 ≤ r → 1 ≤ c → getCell B r c = getCell A r c) :
    find_sum_rows B = find_sum_rows A := by
  unfold find_sum_rows
  rw [show maxRow B = maxRow A from by unfold maxRow; rw [hlen]]
  apply List.filter_congr
  intro r hr
  have hrr := List.mem_range'_1.mp hr
  rw [hc r (colIdx "address" + 1) (by omega) (by omega)]

/-! ### The replay specification `cellSpec` -/

theorem cellSpec_nil (S : Sheet) (ids : List (CellVal × Nat)) (r c : Nat) :
    cellSpec S ids [] r c = getCell S r c := by
  unfold cellSpec
  split
  · cases getCell S r 1 <;> rfl
  · rfl

theorem cellSpec_collapse (S : Sheet) (orders : List Order)
    (hN3 : ∀ i o r, occLast orders i = some o →
      dictLookup (build_existing_ids S) (CellVal.int i) = some r →
      getCell S r 2 = targetCell o 2 ∧ getCell S r 21 = targetCell o 21 ∧
      getCell S r 22 = targetCell o 22 ∧ getCell S r 25 = targetCell o 25)
    (r c : Nat) :
    cellSpec S (build_existing_ids S) orders r c = getCell S r c := by
  unfold cellSpec
  split
  · rename_i hmut
    cases hcell : getCell S r 1 with
    | int i =>
      dsimp only
      cases hocc : occLast orders i with
      | none => rfl
      | some o =>
        dsimp only
        split
        · rename_i hlook
          obtain ⟨e2, e21, e22, e25⟩ := hN3 i o r hocc hlook
          rcases hmut with h | h | h | h <;> subst h
          · exact e2.symm
          · exact e21.symm
          · exact e22.symm
          · exact e25.symm
        · rfl
    | empty => rfl
    | str v => rfl
  · rfl

/-! ### Shape of the saved file and of the reloaded sheet -/

theorem initSheet_some_concat (x : Sheet) (w g : Row) :
    initSheet (some (x ++ [w, g])) = x := by
  have hc1 : ¬((x ++ [w, g] : Sheet).length ≤ 1) := by
    simp only [List.length_append, List.length_cons, List.length_nil]
    omega
  have hc2 : ((x ++ [w, g] : Sheet).length > 1) := by
    simp only [List.length_append, List.length_cons, List.length_nil]
    omega
  unfold initSheet
  dsimp only
  simp only [Option.getD_some]
  rw [if_neg hc1, if_pos hc2]
  rw [show x ++ [w, g] = (x ++ [w]) ++ [g] from by simp]
  rw [List.dropLast_concat, List.dropLast_concat]

/-! ### First-run loop invariant -/

/-- Effect of the insert path on the `Run1Inv` fields, for a base sheet
`B` (the loop sheet, possibly extended by a freshly emitted subtotal row
or by the phantom first row of an empty workbook). -/
theorem run1_insert_preserve (s0 : Sheet) (P : List Order) (o : Order)
    (B : Sheet) (hBne : B ≠ [])
    (hα : s0.length ≤ B.length)
    (hβ : ∀ r, 1 ≤ r → r ≤ s0.length → getCell B r 1 = getCell s0 r 1)
    (hγ : ∀ r j, s0.length < r → getCell B r 1 = CellVal.int j →
      dictLookup (build_existing_ids s0) (CellVal.int j) = none)
    (hδ : ∀ i o2, occLast P i = some o2 → ∃ r, 2 ≤ r ∧ r ≤ B.length ∧
      getCell B r 1 = CellVal.int i ∧ getCell B r 2 = targetCell o2 2 ∧
      getCell B r 21 = targetCell o2 21 ∧ getCell B r 22 = targetCell o2 22 ∧
      getCell B r 25 = targetCell o2 25 ∧
      ∀ r', r < r' → getCell B r' 1 ≠ CellVal.int i)
    (hlook : dictLookup (build_existing_ids s0) (CellVal.int o.id) = none)
    (row : Row) (hcr : create_order_row o = some row)
    (t : Sheet) (ri : Nat) (hins : insertNewOrder B o = some (t, ri)) :
    s0.length ≤ t.length ∧
    (∀ r, 1 ≤ r → r ≤ s0.length → getCell t r 1 = getCell s0 r 1) ∧
    (∀ r j, s0.length < r → getCell t r 1 = CellVal.int j →
      dictLookup (build_existing_ids s0) (CellVal.int j) = none) ∧
    (∀ i o2, occLast (P ++ [o]) i = some o2 → ∃ r, 2 ≤ r ∧ r ≤ t.length ∧
      getCell t r 1 = CellVal.int i ∧ getCell t r 2 = targetCell o2 2 ∧
      getCell t r 21 = targetCell o2 21 ∧ getCell t r 22 = targetCell o2 22 ∧
      getCell t r 25 = targetCell o2 25 ∧
      ∀ r', r < r' → getCell t r' 1 ≠ CellVal.int i) := by
  have hBlen : 1 ≤ B.length := List.length_pos.mpr hBne
  obtain ⟨t', hins', htne, htlen, hthead, htframe, htcol1, htcells, htcp⟩ :=
    insertNewOrder_facts B o hBne row hcr
  rw [hins'] at hins
  injection hins with hins
  injection hins with ht hri
  subst ht
  subst hri
  obtain ⟨c1, c2, c21, c22, c25⟩ := create_order_row_cells o row hcr
  have hcp24 : ∀ c : Nat, c = 1 ∨ c = 2 ∨ c = 21 ∨ c = 22 ∨ c = 25 →
      c ≠ colIdx "com_postage" + 1 := by
    intro c hc
    rw [colIdx_com_postage]
    rcases hc with h | h | h | h | h <;> omega
  refine ⟨?_, ?_, ?_, ?_⟩
  · rw [htlen]
    omega
  · intro r hr hrle
    rw [htframe r 1 hr (by omega) (by omega)]
    exact hβ r hr hrle
  · intro r j hr hcell
    rcases le_or_lt r B.length with hle | hgt
    · rw [htframe r 1 (by omega) (by omega) hle] at hcell
      exact hγ r j hr hcell
    · rcases le_or_lt r (B.length + 1) with hle2 | hgt2
      · have hre : r = B.length + 1 := by omega
        subst hre
        rw [htcells 1 (by omega) (hcp24 1 (Or.inl rfl)), c1] at hcell
        injection hcell with hj
        subst hj
        exact hlook
      · have hni := htcol1 r (by omega)
        rw [hcell] at hni
        simp [isIntCell] at hni
  · intro i o2 hocc
    rw [occLast_append_single] at hocc
    by_cases hio : o.id = i
    · rw [if_pos hio] at hocc
      injection hocc with ho2
      subst ho2
      subst hio
      refine ⟨B.length + 1, by omega, by rw [htlen]; omega, ?_, ?_, ?_, ?_,
        ?_, ?_⟩
      · rw [htcells 1 (by omega) (hcp24 1 (Or.inl rfl))]
        exact c1
      · rw [htcells 2 (by omega) (hcp24 2 (Or.inr (Or.inl rfl))), c2]
        exact (targetCell_status o).symm
      · rw [htcells 21 (by omega)
          (hcp24 21 (Or.inr (Or.inr (Or.inl rfl)))), c21]
        exact (targetCell_datei o).symm
      · rw [htcells 22 (by omega)
          (hcp24 22 (Or.inr (Or.inr (Or.inr (Or.inl rfl))))), c22]
        exact (targetCell_track o).symm
      · rw [htcells 25 (by omega)
          (hcp24 25 (Or.inr (Or.inr (Or.inr (Or.inr rfl))))), c25]
        exact (targetCell_deliver o).symm
      · intro r' hgt hcell
        have hni := htcol1 r' hgt
        rw [hcell] at hni
        simp [isIntCell] at hni
    · rw [if_neg hio] at hocc
      obtain ⟨r, h2, hrle, hc1, e2, e21, e22, e25, hlastn⟩ := hδ i o2 hocc
      refine ⟨r, h2, by rw [htlen]; omega, ?_, ?_, ?_, ?_, ?_, ?_⟩
      · rw [htframe r 1 (by omega) (by omega) hrle]
        exact hc1
      · rw [htframe r 2 (by omega) (by omega) hrle]
        exact e2
      · rw [htframe r 21 (by omega) (by omega) hrle]
        exact e21
      · rw [htframe r 22 (by omega) (by omega) hrle]
        exact e22
      · rw [htframe r 25 (by omega) (by omega) hrle]
        exact e25
      · intro r' hgt hcell
        rcases le_or_lt r' B.length with hle' | hgt'
        · rw [htframe r' 1 (by omega) (by omega) hle'] at hcell
          exact hlastn r' hgt hcell
        · rcases le_or_lt r' (B.length + 1) with hle2' | hgt2'
          · have hre : r' = B.length + 1 := by omega
            subst hre
            rw [htcells 1 (by omega) (hcp24 1 (Or.inl rfl)), c1] at hcell
            injection hcell with hj
            exact hio hj
          · have hni := htcol1 r' (by omega)
            rw [hcell] at hni
            simp [isIntCell] at hni

theorem run1_step (s0 : Sheet) (P : List Order) (st st' : LoopState)
    (o : Order) (hInv : Run1Inv s0 (build_existing_ids s0) P st)
    (hstep : procOrder (build_existing_ids s0) st o = some st') :
    Run1Inv s0 (build_existing_ids s0) (P ++ [o]) st' := by
  unfold procOrder at hstep
  cases hdp : o.date_paid with
  | none =>
    rw [hdp] at hstep
    simp at hstep
  | some dp =>
    rw [hdp] at hstep
    dsimp only at hstep
    cases hcv : convert_to_jalali dp with
    | none =>
      rw [hcv] at hstep
      simp at hstep
    | some jdp =>
      rw [hcv] at hstep
      obtain ⟨jd, tp⟩ := jdp
      dsimp only at hstep
      cases hlook : dictLookup (build_existing_ids s0) (CellVal.int o.id) with
      | some rd =>
        rw [hlook] at hstep
        dsimp only at hstep
        have hst' : st' = { st with
            sheet := updateExisting st.sheet rd o,
            last_month := some (monthKey jd) } := by
          injection hstep with h
          exact h.symm
        subst hst'
        have hs0ne : s0 ≠ [] := by
          intro h0
          rw [h0, build_existing_ids_nil] at hlook
          exact Option.noConfusion hlook
        obtain ⟨hrd2, hrdlen, hrdcell, hrdlast⟩ :=
          build_lookup_some s0 (CellVal.int o.id) rd hs0ne (by simp) hlook
        have hrdlen' : rd ≤ st.sheet.length := le_trans hrdlen hInv.hlen
        obtain ⟨ulen, uhead, u2, u21, u22, u25⟩ :=
          updateExisting_facts st.sheet rd o hrd2 hrdlen'
        have hrdcell' : getCell st.sheet rd 1 = CellVal.int o.id := by
          rw [hInv.hold1 rd (by omega) hrdlen]
          exact hrdcell
        refine ⟨?_, ?_, ?_, ?_, ?_⟩
        · dsimp only
          rw [ulen]
          exact hInv.hlen
        · exact hInv.hfr
        · intro r hr hrle
          dsimp only
          rw [updateExisting_frame st.sheet rd o r 1 (by omega) hr (by omega)
            (by intro hcon; rcases hcon.2 with h | h | h | h <;> omega)]
          exact hInv.hold1 r hr hrle
        · intro r j hr hcell
          dsimp only at hcell
          rcases le_or_lt r st.sheet.length with hle | hgt
          · rw [updateExisting_frame st.sheet rd o r 1 (by omega) (by omega)
              (by omega)
              (by intro hcon; rcases hcon.2 with h | h | h | h <;> omega)]
              at hcell
            exact hInv.hnew1 r j hr hcell
          · rw [getCell_of_ge_length _ _ _ (by rw [ulen]; omega)] at hcell
            exact CellVal.noConfusion hcell
        · intro i o2 hocc
          rw [occLast_append_single] at hocc
          by_cases hio : o.id = i
          · rw [if_pos hio] at hocc
            injection hocc with ho2
            subst ho2
            subst hio
            refine ⟨rd, hrd2, by dsimp only; rw [ulen]; exact hrdlen', ?_,
              by dsimp only; exact u2, by dsimp only; exact u21,
              by dsimp only; exact u22, by dsimp only; exact u25, ?_⟩
            · dsimp only
              rw [updateExisting_frame st.sheet rd o rd 1 (by omega)
                (by omega) (by omega)
                (by intro hcon; rcases hcon.2 with h | h | h | h <;> omega)]
              exact hrdcell'
            · intro r' hgt hcell
              dsimp only at hcell
              rcases le_or_lt r' st.sheet.length with hle | hgt2
              · rw [updateExisting_frame st.sheet rd o r' 1 (by omega)
                  (by omega) (by omega)
                  (by intro hcon; rcases hcon.2 with h | h | h | h <;> omega)]
                  at hcell
                rcases le_or_lt r' s0.length with hle2 | hgt3
                · rw [hInv.hold1 r' (by omega) hle2] at hcell
                  exact hrdlast r' hgt hle2 hcell
                · have := hInv.hnew1 r' o.id hgt3 hcell
                  rw [this] at hlook
                  exact Option.noConfusion hlook
              · rw [getCell_of_ge_length _ _ _ (by rw [ulen]; omega)] at hcell
                exact CellVal.noConfusion hcell
          · rw [if_neg hio] at hocc
            obtain ⟨r, h2, hrle, hc1, e2, e21, e22, e25, hlastn⟩ :=
              hInv.hlast i o2 hocc
            have hrne : r ≠ rd := by
              intro hre
              subst hre
              rw [hc1] at hrdcell'
              injection hrdcell' with hii
              exact hio hii.symm
            refine ⟨r, h2, by dsimp only; rw [ulen]; exact hrle, ?_, ?_, ?_,
              ?_, ?_, ?_⟩
            · dsimp only
              rw [updateExisting_frame st.sheet rd o r 1 (by omega) (by omega)
                (by omega) (by intro hcon; exact hrne hcon.1)]
              exact hc1
            · dsimp only
              rw [updateExisting_frame st.sheet rd o r 2 (by omega) (by omega)
                (by omega) (by intro hcon; exact hrne hcon.1)]
              exact e2
            · dsimp only
              rw [updateExisting_frame st.sheet rd o r 21 (by omega)
                (by omega) (by omega) (by intro hcon; exact hrne hcon.1)]
              exact e21
            · dsimp only
              rw [updateExisting_frame st.sheet rd o r 22 (by omega)
                (by omega) (by omega) (by intro hcon; exact hrne hcon.1)]
              exact e22
            · dsimp only
              rw [updateExisting_frame st.sheet rd o r 25 (by omega)
                (by omega) (by omega) (by intro hcon; exact hrne hcon.1)]
              exact e25
            · intro r' hgt hcell
              dsimp only at hcell
              rcases le_or_lt r' st.sheet.length with hle | hgt2
              · rw [updateExisting_frame st.sheet rd o r' 1 (by omega)
                  (by omega) (by omega)
                  (by intro hcon; rcases hcon.2 with h | h | h | h <;> omega)]
                  at hcell
                exact hlastn r' hgt hcell
              · rw [getCell_of_ge_length _ _ _ (by rw [ulen]; omega)] at hcell
                exact CellVal.noConfusion hcell
      | none =>
        rw [hlook] at hstep
        dsimp only at hstep
        by_cases hcm : monthKey jd ≠ (st.last_month.getD (monthKey jd))
        · rw [if_pos hcm] at hstep
          cases hadd : add_sum_row st.sheet st.from_row (maxRow st.sheet)
              COL_LIST with
          | none =>
            rw [hadd] at hstep
            simp at hstep
          | some pr =>
            obtain ⟨sh1, i1⟩ := pr
            rw [hadd] at hstep
            dsimp only at hstep
            have hsne : st.sheet ≠ [] := by
              intro h0
              rw [h0, add_sum_row_nil] at hadd
              exact Option.noConfusion hadd
            rw [add_sum_row_run st.sheet st.from_row hsne hInv.hfr] at hadd
            cases hcnt : count_integer_rows st.sheet (headerLabel "order_id")
                st.from_row st.sheet.length with
            | none =>
              rw [hcnt] at hadd
              exact absurd hadd (by simp)
            | some cnt =>
              rw [hcnt] at hadd
              dsimp only at hadd
              injection hadd with hadd
              injection hadd with hsh1 hi1
              subst hsh1
              subst hi1
              cases hcr : create_order_row o with
              | none =>
                rw [show insertNewOrder (st.sheet ++
                    [sumRowOf cnt st.from_row st.sheet.length]) o = none from
                  by unfold insertNewOrder; rw [hcr]] at hstep
                simp at hstep
              | some row =>
                cases hins : insertNewOrder (st.sheet ++
                    [sumRowOf cnt st.from_row st.sheet.length]) o with
                | none =>
                  rw [hins] at hstep
                  simp at hstep
                | some pr2 =>
                  obtain ⟨t, ri⟩ := pr2
                  rw [hins] at hstep
                  dsimp only at hstep
                  have hst' : st' = ⟨t, some (monthKey jd),
                      maxRow (st.sheet ++
                        [sumRowOf cnt st.from_row st.sheet.length]) + 1,
                      st.new_count + 1,
                      st.sumLog ++ [⟨st.from_row, maxRow st.sheet,
                        st.last_month.getD (monthKey jd)⟩],
                      st.rowLog ++ [(ri, monthKey jd)]⟩ := by
                    injection hstep with h
                    exact h.symm
                  subst hst'
                  have hw1 : cellAt (sumRowOf cnt st.from_row
                      st.sheet.length) 1 = CellVal.empty :=
                    (sumRowOf_cells cnt st.from_row st.sheet.length).1
                  have hlenB : (st.sheet ++
                      [sumRowOf cnt st.from_row st.sheet.length]).length =
                      st.sheet.length + 1 := by simp
                  have hslen : 1 ≤ st.sheet.length :=
                    List.length_pos.mpr hsne
                  obtain ⟨k1, k2, k3, k4⟩ := run1_insert_preserve s0 P o
                    (st.sheet ++ [sumRowOf cnt st.from_row st.sheet.length])
                    (by simp)
                    (by rw [hlenB]; have := hInv.hlen; omega)
                    (by
                      intro r hr hrle
                      rw [getCell_append_left _ _ _ _ hr
                        (by have := hInv.hlen; omega)]
                      exact hInv.hold1 r hr hrle)
                    (by
                      intro r j hr hcell
                      rcases le_or_lt r st.sheet.length with hle | hgt
                      · rw [getCell_append_left _ _ _ _ (by omega) hle]
                          at hcell
                        exact hInv.hnew1 r j hr hcell
                      · rcases le_or_lt r (st.sheet.length + 1) with
                          hle2 | hgt2
                        · have hre : r = st.sheet.length + 1 := by omega
                          subst hre
                          rw [getCell_append_new, hw1] at hcell
                          exact CellVal.noConfusion hcell
                        · rw [getCell_of_ge_length _ _ _
                            (by rw [hlenB]; omega)] at hcell
                          exact CellVal.noConfusion hcell)
                    (by
                      intro i o2 hocc
                      obtain ⟨r, h2, hrle, hc1, e2, e21, e22, e25, hlastn⟩ :=
                        hInv.hlast i o2 hocc
                      refine ⟨r, h2, by rw [hlenB]; omega,
                        by rw [getCell_append_left _ _ _ _ (by omega) hrle]
                           exact hc1,
                        by rw [getCell_append_left _ _ _ _ (by omega) hrle]
                           exact e2,
                        by rw [getCell_append_left _ _ _ _ (by omega) hrle]
                           exact e21,
                        by rw [getCell_append_left _ _ _ _ (by omega) hrle]
                           exact e22,
                        by rw [getCell_append_left _ _ _ _ (by omega) hrle]
                           exact e25, ?_⟩
                      intro r' hgt hcell
                      rcases le_or_lt r' st.sheet.length with hle' | hgt'
                      · rw [getCell_append_left _ _ _ _ (by omega) hle']
                          at hcell
                        exact hlastn r' hgt hcell
                      · rcases le_or_lt r' (st.sheet.length + 1) with
                          hle2' | hgt2'
                        · have hre : r' = st.sheet.length + 1 := by omega
                          subst hre
                          rw [getCell_append_new, hw1] at hcell
                          exact CellVal.noConfusion hcell
                        · rw [getCell_of_ge_length _ _ _
                            (by rw [hlenB]; omega)] at hcell
                          exact CellVal.noConfusion hcell)
                    hlook row hcr t ri hins
                  exact ⟨k1, by dsimp only; omega, k2, k3, k4⟩
        · rw [if_neg hcm] at hstep
          dsimp only at hstep
          cases hcr : create_order_row o with
          | none =>
            rw [show insertNewOrder st.sheet o = none from
              by unfold insertNewOrder; rw [hcr]] at hstep
            simp at hstep
          | some row =>
            cases hins : insertNewOrder st.sheet o with
            | none =>
              rw [hins] at hstep
              simp at hstep
            | some pr2 =>
              obtain ⟨t, ri⟩ := pr2
              rw [hins] at hstep
              dsimp only at hstep
              have hst' : st' = ⟨t, some (monthKey jd), st.from_row,
                  st.new_count + 1, st.sumLog,
                  st.rowLog ++ [(ri, monthKey jd)]⟩ := by
                injection hstep with h
                exact h.symm
              subst hst'
              by_cases hsnil : st.sheet = []
              · rw [hsnil, insertNewOrder_nil_eq] at hins
                have hs0len : s0.length = 0 := by
                  have := hInv.hlen
                  rw [hsnil] at this
                  simpa using this
                obtain ⟨k1, k2, k3, k4⟩ := run1_insert_preserve s0 P o
                  [[]] (by simp)
                  (by simp [hs0len])
                  (by intro r hr hrle; omega)
                  (by
                    intro r j hr hcell
                    rcases le_or_lt r 1 with hle | hgt
                    · have hre : r = 1 := by omega
                      subst hre
                      rw [show getCell [[]] 1 1 = CellVal.empty from rfl]
                        at hcell
                      exact CellVal.noConfusion hcell
                    · rw [getCell_of_ge_length _ _ _ (by simpa using hgt)]
                        at hcell
                      exact CellVal.noConfusion hcell)
                  (by
                    intro i o2 hocc
                    obtain ⟨r, h2, hrle, _⟩ := hInv.hlast i o2 hocc
                    rw [hsnil] at hrle
                    simp at hrle
                    omega)
                  hlook row hcr t ri hins
                exact ⟨k1, hInv.hfr, k2, k3, k4⟩
              · obtain ⟨k1, k2, k3, k4⟩ := run1_insert_preserve s0 P o
                  st.sheet hsnil hInv.hlen hInv.hold1 hInv.hnew1 hInv.hlast
                  hlook row hcr t ri hins
                exact ⟨k1, hInv.hfr, k2, k3, k4⟩

theorem run1_base (s0 : Sheet) :
    Run1Inv s0 (build_existing_ids s0) [] ⟨s0, none, 2, 0, [], []⟩ := by
  refine ⟨le_refl _, Nat.le_succ 1, fun r hr hrle => rfl, ?_, ?_⟩
  · intro r j hr hcell
    dsimp only at hcell
    rw [getCell_of_ge_length s0 r 1 hr] at hcell
    exact CellVal.noConfusion hcell
  · intro i o h
    exact Option.noConfusion h

theorem run1_fold (s0 : Sheet) :
    ∀ (rest P : List Order) (st st' : LoopState),
      Run1Inv s0 (build_existing_ids s0) P st →
      rest.foldlM (procOrder (build_existing_ids s0)) st = some st' →
      Run1Inv s0 (build_existing_ids s0) (P ++ rest) st' := by
  intro rest
  induction rest with
  | nil =>
    intro P st st' h hf
    simp only [List.foldlM_nil] at hf
    injection hf with h'
    rw [← h', List.append_nil]
    exact h
  | cons o rest' ih =>
    intro P st st' h hf
    rw [List.foldlM_cons] at hf
    cases hstep : procOrder (build_existing_ids s0) st o with
    | none =>
      rw [hstep] at hf
      simp at hf
    | some st1 =>
      rw [hstep] at hf
      simp only [Option.bind_eq_bind, Option.some_bind] at hf
      have hk := ih (P ++ [o]) st1 st' (run1_step s0 P st st1 o h hstep) hf
      rwa [List.append_assoc, List.singleton_append] at hk

/-! ### Second-run loop invariant -/

theorem inv2_step (S : Sheet) (P : List Order) (st : LoopState) (o : Order)
    (hS : S ≠ []) (hInv : Inv2 S P st)
    (dp : String) (hdp : o.date_paid = some dp)
    (jd : JalaliDate) (rs : String)
    (hcv : convert_to_jalali dp = some (jd, rs)) (rr : Nat)
    (hlook : dictLookup (build_existing_ids S) (CellVal.int o.id) = some rr) :
    procOrder (build_existing_ids S) st o = some { st with
        sheet := updateExisting st.sheet rr o,
        last_month := some (monthKey jd) } ∧
    Inv2 S (P ++ [o]) { st with
        sheet := updateExisting st.sheet rr o,
        last_month := some (monthKey jd) } := by
  obtain ⟨hrr2, hrrlen, hrrcell, hrrlast⟩ :=
    build_lookup_some S (CellVal.int o.id) rr hS (by simp) hlook
  have hrrlen' : rr ≤ st.sheet.length := by
    rw [hInv.ilen]
    exact hrrlen
  obtain ⟨ulen, uhead, u2, u21, u22, u25⟩ :=
    updateExisting_facts st.sheet rr o hrr2 hrrlen'
  constructor
  · unfold procOrder
    rw [hdp]
    dsimp only
    rw [hcv]
    dsimp only
    rw [hlook]
  · refine ⟨?_, ?_, ?_⟩
    · dsimp only
      rw [ulen]
      exact hInv.ilen
    · dsimp only
      rw [uhead]
      exact hInv.ihead
    · intro r c hr hc
      dsimp only
      by_cases hmatch : r = rr ∧ (c = 2 ∨ c = 21 ∨ c = 22 ∨ c = 25)
      · obtain ⟨hre, hcs⟩ := hmatch
        subst hre
        have hval : getCell (updateExisting st.sheet r o) r c =
            targetCell o c := by
          rcases hcs with h | h | h | h <;> subst h
          · exact u2
          · exact u21
          · exact u22
          · exact u25
        rw [hval]
        unfold cellSpec
        rw [if_pos hcs, hrrcell]
        dsimp only
        rw [occLast_append_single, if_pos rfl]
        dsimp only
        rw [if_pos hlook]
      · rw [updateExisting_frame st.sheet rr o r c (by omega) hr hc hmatch,
          hInv.icell r c hr hc]
        unfold cellSpec
        by_cases hcs : c = 2 ∨ c = 21 ∨ c = 22 ∨ c = 25
        · rw [if_pos hcs, if_pos hcs]
          cases hcell : getCell S r 1 with
          | empty => rfl
          | str v => rfl
          | int i =>
            dsimp only
            rw [occLast_append_single]
            by_cases hio : o.id = i
            · rw [if_pos hio]
              have hrne : r ≠ rr := fun hre => hmatch ⟨hre, hcs⟩
              have hlooki : dictLookup (build_existing_ids S)
                  (CellVal.int i) = some rr := by
                rw [← hio]
                exact hlook
              have hcond : ¬(dictLookup (build_existing_ids S)
                  (CellVal.int i) = some r) := by
                rw [hlooki]
                intro hcon
                injection hcon with hcon
                exact hrne hcon.symm
              cases hocc : occLast P i with
              | none =>
                dsimp only
                rw [if_neg hcond]
              | some o' =>
                dsimp only
                rw [if_neg hcond, if_neg hcond]
            · rw [if_neg hio]
        · rw [if_neg hcs, if_neg hcs]

theorem inv2_base (S : Sheet) :
    Inv2 S [] ⟨S, none, 2, 0, [], []⟩ :=
  ⟨rfl, rfl, fun r c hr hc => (cellSpec_nil S (build_existing_ids S) r c).symm⟩

theorem inv2_fold (S : Sheet) (hS : S ≠ []) :
    ∀ (rest P : List Order) (st : LoopState), Inv2 S P st →
      (∀ o ∈ rest, (∃ dp jd rs, o.date_paid = some dp ∧
          convert_to_jalali dp = some (jd, rs)) ∧
        ∃ rr, dictLookup (build_existing_ids S) (CellVal.int o.id) =
          some rr) →
      ∃ st', rest.foldlM (procOrder (build_existing_ids S)) st = some st' ∧
        Inv2 S (P ++ rest) st' := by
  intro rest
  induction rest with
  | nil =>
    intro P st h hall
    exact ⟨st, rfl, by rw [List.append_nil]; exact h⟩
  | cons o rest' ih =>
    intro P st h hall
    obtain ⟨⟨dp, jd, rs, hdp, hcv⟩, rr, hlook⟩ :=
      hall o (List.mem_cons_self _ _)
    obtain ⟨hproc, hinv'⟩ := inv2_step S P st o hS h dp hdp jd rs hcv rr hlook
    obtain ⟨st', hfold, hinv''⟩ := ih (P ++ [o]) _ hinv'
      (fun o' ho' => hall o' (List.mem_cons_of_mem _ ho'))
    refine ⟨st', ?_, ?_⟩
    · rw [List.foldlM_cons, hproc]
      simp only [Option.bind_eq_bind, Option.some_bind]
      exact hfold
    · rwa [List.append_assoc, List.singleton_append] at hinv''

theorem append_totals_eq (X : Sheet) (rows : List Nat) (hX : X ≠ []) :
    append_totals X rows = X ++ [grandRowOf rows] := by
  unfold append_totals grandRowOf
  exact appendRow_eq _ _ hX

/-- C1: idempotence of the reconciliation cycle.  If a first
`write_to_excel` run on any ledger file and batch saves the sheet `s1`,
then a second run on `s1` with the identical batch terminates normally
and saves a cell-for-cell identical ledger. -/
theorem write_to_excel_idempotent (file : Option Sheet) (orders : List Order)
    (s1 : Sheet) (h : write_to_excel file orders = some s1) :
    OptSheetEq (write_to_excel (some s1) orders) (some s1) := by
  unfold write_to_excel at h
  cases hrun : write_to_excel_run file orders with
  | none =>
    rw [hrun] at h
    exact Option.noConfusion h
  | some res =>
    rw [hrun] at h
    injection h with h
    replace h : res.sheet = s1 := h
    unfold write_to_excel_run at hrun
    dsimp only at hrun
    cases hfold : orders.foldlM
        (procOrder (build_existing_ids (initSheet file)))
        ⟨initSheet file, none, 2, 0, [], []⟩ with
    | none =>
      rw [hfold] at hrun
      exact Option.noConfusion hrun
    | some stL =>
      rw [hfold] at hrun
      dsimp only at hrun
      cases hlast : (find_sum_rows stL.sheet).getLast? with
      | none =>
        rw [hlast] at hrun
        exact Option.noConfusion hrun
      | some last =>
        rw [hlast] at hrun
        dsimp only at hrun
        have hmem : last ∈ find_sum_rows stL.sheet :=
          List.mem_of_mem_getLast? hlast
        obtain ⟨hlast2, hlastle, hlastcell⟩ :=
          (mem_find_sum_rows stL.sheet last).mp hmem
        have hSlen2 : 2 ≤ stL.sheet.length := by
          unfold maxRow at hlastle
          omega
        have hSne : stL.sheet ≠ [] := by
          apply List.ne_nil_of_length_pos
          omega
        rw [add_sum_row_run stL.sheet (last + 1) hSne (by omega)] at hrun
        cases hcnt : count_integer_rows stL.sheet (headerLabel "order_id")
            (last + 1) stL.sheet.length with
        | none =>
          rw [hcnt] at hrun
          exact Option.noConfusion hrun
        | some cnt =>
          rw [hcnt] at hrun
          dsimp only at hrun
          injection hrun with hrun
          have hres : res.sheet =
              append_totals (stL.sheet ++
                  [sumRowOf cnt (last + 1) stL.sheet.length])
                (find_sum_rows (stL.sheet ++
                  [sumRowOf cnt (last + 1) stL.sheet.length])) := by
            rw [← hrun]
          have hs1 : s1 = (stL.sheet ++
              [sumRowOf cnt (last + 1) stL.sheet.length]) ++
              [grandRowOf (find_sum_rows (stL.sheet ++
                [sumRowOf cnt (last + 1) stL.sheet.length]))] := by
            rw [← h, hres, append_totals_eq _ _ (by simp [hSne])]
          have hinit2 : initSheet (some s1) = stL.sheet := by
            rw [hs1, List.append_assoc, List.singleton_append]
            exact initSheet_some_concat stL.sheet _ _
          have hInv1 := run1_fold (initSheet file) orders []
            ⟨initSheet file, none, 2, 0, [], []⟩ stL
            (run1_base (initSheet file)) hfold
          rw [List.nil_append] at hInv1
          have hdates := foldlM_dates_ok
            (build_existing_ids (initSheet file)) orders _ stL hfold
          have hN2 : ∀ o ∈ orders, ∃ rr,
              dictLookup (build_existing_ids stL.sheet)
                (CellVal.int o.id) = some rr := by
            intro o ho
            obtain ⟨o', hocc⟩ := occLast_of_mem orders o ho
            obtain ⟨r, h2, hrle, hc1, _, _, _, _, hlastn⟩ :=
              hInv1.hlast o.id o' hocc
            exact ⟨r, build_lookup_of stL.sheet (CellVal.int o.id) r hSne
              (by simp) h2 hrle hc1 (fun r' hgt => hlastn r' hgt)⟩
          have hN3 : ∀ i o r, occLast orders i = some o →
              dictLookup (build_existing_ids stL.sheet)
                (CellVal.int i) = some r →
              getCell stL.sheet r 2 = targetCell o 2 ∧
              getCell stL.sheet r 21 = targetCell o 21 ∧
              getCell stL.sheet r 22 = targetCell o 22 ∧
              getCell stL.sheet r 25 = targetCell o 25 := by
            intro i o r hocc hlook2
            obtain ⟨rh, h2, hrle, hc1, e2, e21, e22, e25, hlastn⟩ :=
              hInv1.hlast i o hocc
            obtain ⟨hr2, hrlen, hrcell, hrlast⟩ :=
              build_lookup_some stL.sheet (CellVal.int i) r hSne
                (by simp) hlook2
            have hre : r = rh := by
              rcases Nat.lt_trichotomy r rh with hlt | heq | hgt
              · exact absurd hc1 (hrlast rh hlt hrle)
              · exact heq
              · exact absurd hrcell (hlastn r hgt)
            subst hre
            exact ⟨e2, e21, e22, e25⟩
          unfold write_to_excel write_to_excel_run
          dsimp only
          rw [hinit2]
          obtain ⟨st2, hfold2, hInv2⟩ := inv2_fold stL.sheet hSne orders []
            ⟨stL.sheet, none, 2, 0, [], []⟩ (inv2_base stL.sheet)
            (fun o ho => ⟨hdates o ho, hN2 o ho⟩)
          rw [List.nil_append] at hInv2
          rw [hfold2]
          dsimp only
          have hBA : ∀ r c, 1 ≤ r → 1 ≤ c →
              getCell st2.sheet r c = getCell stL.sheet r c := by
            intro r c hr hc
            rw [hInv2.icell r c hr hc]
            exact cellSpec_collapse stL.sheet orders hN3 r c
          have hlen2 : st2.sheet.length = stL.sheet.length := hInv2.ilen
          have hfsr2 : find_sum_rows st2.sheet = find_sum_rows stL.sheet :=
            find_sum_rows_congr stL.sheet st2.sheet hlen2 hBA
          rw [hfsr2, hlast]
          dsimp only
          have hst2ne : st2.sheet ≠ [] := by
            apply List.ne_nil_of_length_pos
            rw [hlen2]
            omega
          rw [add_sum_row_run st2.sheet (last + 1) hst2ne (by omega)]
          have hcnt2 : count_integer_rows st2.sheet (headerLabel "order_id")
              (last + 1) st2.sheet.length = some cnt := by
            rw [hlen2, count_integer_rows_congr stL.sheet st2.sheet _ _ _
              hInv2.ihead (by omega)
              (fun r c hr hrb hc => hBA r c hr hc), hcnt]
          rw [hcnt2]
          dsimp only
          rw [hlen2]
          have hfsr3 : find_sum_rows (st2.sheet ++
              [sumRowOf cnt (last + 1) stL.sheet.length]) =
              find_sum_rows (stL.sheet ++
              [sumRowOf cnt (last + 1) stL.sheet.length]) :=
            find_sum_rows_congr
              (stL.sheet ++ [sumRowOf cnt (last + 1) stL.sheet.length])
              (st2.sheet ++ [sumRowOf cnt (last + 1) stL.sheet.length])
              (by simp [hlen2])
              (fun r c hr hc =>
                getCell_append_congr stL.sheet st2.sheet _ hlen2 hBA r c hr hc)
          rw [hfsr3, append_totals_eq _ _ (by simp [hst2ne])]
          show SheetEq ((st2.sheet ++
              [sumRowOf cnt (last + 1) stL.sheet.length]) ++
              [grandRowOf (find_sum_rows (stL.sheet ++
                [sumRowOf cnt (last + 1) stL.sheet.length]))]) s1
          rw [hs1]
          constructor
          · simp [hlen2]
          · intro r c hr hc
            rw [List.append_assoc, List.append_assoc]
            exact getCell_append_congr stL.sheet st2.sheet _ hlen2 hBA r c hr hc

/-- Witness for C1 at a concrete input: the two-order demo batch on an
absent file saves `demoRun1.sheet`, and replaying the batch on that file
is cell-for-cell idempotent. -/
theorem write_to_excel_idempotent_witness :
    write_to_excel none demoBatch = some demoRun1.sheet ∧
    OptSheetEq (write_to_excel (some demoRun1.sheet) demoBatch)
      (some demoRun1.sheet) :=
  ⟨by rfl, write_to_excel_idempotent none demoBatch demoRun1.sheet (by rfl)⟩

end FetchWC

